import Mathlib

/-!
A verification development for the aytechnet/decimal Go package.

The package stores a fixed-point decimal in a single 64-bit word
(sign bit 63, loss bit 62, a 5-bit exponent field in bits 57..61 and a
57-bit mantissa in bits 0..56).  We embed the package shallowly:

* a Go `Decimal` (an `int64`) is represented by `Decimal := Int`, the
  mathematical value of the two's-complement word;
* the internal `uint64` words are represented by `Nat` together with
  explicit `% 2^64` where Go arithmetic can wrap;
* the internal VME tuple `(v, m, e)` of the source is represented by
  `VFlag × Nat × Int`: the `v` word of the decimal core only ever holds
  the sign and loss bits, so it is represented by the structure `VFlag`
  with the two booleans; `m` is the `uint64` mantissa and `e` the
  `int64` exponent (with the `math.MinInt64` / `math.MaxInt64`
  sentinels represented by the same values as `Int`);
* `bits.Mul64 (a, b)` is `((a*b) / 2^64, (a*b) % 2^64)` and
  `bits.Div64 (hi, lo, y)` is `((hi*2^64+lo) / y, (hi*2^64+lo) % y)`
  at call sites whose guards rule out the panic cases; a separate,
  panic-instrumented copy of the division routine (`vmeDivRemP`)
  returns `Option` and is used to study totality;
* the Weight unit-tagged variant has its own core (the source ships a
  slightly different generation of the core for it); its `v` word also
  carries the 4-bit unit tag, represented by the structure `WFlag`.

Functions keep the names of the Go source.
-/

namespace DecimalSpec

/-- A Go Decimal is an int64; we model it by its mathematical value. -/
abbrev Decimal := Int

/-- 2^64, the modulus of Go uint64 arithmetic. -/
def U64 : Nat := 18446744073709551616

/-- 2^63, the sign bit of the packed word. -/
def signBit : Nat := 9223372036854775808

/-- 2^62, the loss bit of the packed word. -/
def lossBit : Nat := 4611686018427387904

/-- 2^57, the weight of the exponent field (decimal_bit_e = 57). -/
def expBit : Nat := 144115188075855872

/-- math.MinInt64 as an integer. -/
def minI64 : Int := -9223372036854775808

/-- math.MaxInt64 as an integer. -/
def maxI64 : Int := 9223372036854775807

/-- MaxInt = 0x01ffffffffffffff = 2^57 - 1: the mantissa mask and the largest
int64 stored as a Decimal with exponent 0. -/
def MaxInt : Nat := 144115188075855871

/-- Null = 0, the uninitialized Decimal. -/
def Null : Decimal := 0

/-- Zero = math.MinInt64, the canonical non-empty zero. -/
def Zero : Decimal := -9223372036854775808

/-- NearZero = Zero | loss: as an int64 this is -(2^62). -/
def NearZero : Decimal := -4611686018427387904

/-- NearPositiveZero = 0x6000000000000000. -/
def NearPositiveZero : Decimal := 6917529027641081856

/-- NearNegativeZero = -NearPositiveZero. -/
def NearNegativeZero : Decimal := -6917529027641081856

/-- PositiveInfinity = 0x5e00000000000000. -/
def PositiveInfinity : Decimal := 6773413839565225984

/-- NegativeInfinity = -PositiveInfinity. -/
def NegativeInfinity : Decimal := -6773413839565225984

/-- NaN = 0x4200000000000000 (the canonical NaN; other NaN-boxed patterns exist). -/
def NaN : Decimal := 4755801206503243776

/-- The v word of a decimal VME tuple: it only ever carries the sign bit
(bit 63) and the loss bit (bit 62). -/
structure VFlag where
  s : Bool
  l : Bool
deriving DecidableEq, Repr

/-- ten_pow: the array of powers of ten that fit in a uint64. -/
def ten_pow : List Nat :=
  [1, 10, 100, 1000, 10000, 100000, 1000000, 10000000, 100000000, 1000000000,
   10000000000, 100000000000, 1000000000000, 10000000000000, 100000000000000,
   1000000000000000, 10000000000000000, 100000000000000000, 1000000000000000000,
   10000000000000000000]

/-- ten_pow[i]; the Go code only indexes the table inside guards that keep
the index within 0..19 (the panic-instrumented variant checks the bound). -/
def tenPowAt (i : Nat) : Nat := ten_pow.getD i 0

/-- uint64(d): the two's-complement word of an int64 value. -/
def u64 (d : Int) : Nat := (d % 18446744073709551616).toNat

/-- Go unary minus on int64 (it wraps at math.MinInt64). -/
def int64Neg (d : Int) : Int := if d = minI64 then d else -d

/-- int64(u): the value of a uint64 word read back as an int64. -/
def ofU64 (u : Nat) : Int := if u < 9223372036854775808 then (u : Int) else (u : Int) - 18446744073709551616

/-- veNormalizeMagic of the decimal core (m is 0): clamp the exponent of a
magic value; a loss-free tuple collapses to the canonical zero. -/
def veNormalizeMagic (v : VFlag) (e min_e max_e : Int) : VFlag × Nat × Int :=
  if v.l = false then (v, 0, 0)
  else (v, 0, if e < min_e then min_e else if e > max_e then max_e else e)

/-- The trailing-zero stripping loop of vmeNormalize: divide m by 10 while it
exceeds max_m, or stays divisible by 10 with exponent room; a nonzero
remainder on an oversized mantissa sets loss and rounds half-to-even.  The
mantissa shrinks on every iteration and starts below 2^64 < 10^20, so the
structural fuel of 64 used by the wrapper is never exhausted. -/
def vmeNormalizeLoopF : Nat → VFlag → Nat → Int → Nat → Int → VFlag × Nat × Int
  | 0, v, m, e, _, _ => (v, m, e)
  | fuel + 1, v, m, e, max_m, max_e =>
    if m > max_m ∨ (e ≤ max_e ∧ m > 9 ∧ m % 2 = 0) then
      let q := m / 10
      let r := m % 10
      if r ≠ 0 then
        if m ≤ max_m then (v, m, e)
        else
          -- round to the nearest, half-to-even
          let q' := if r > 5 ∨ (r = 5 ∧ q % 2 = 1) then q + 1 else q
          vmeNormalizeLoopF fuel ⟨v.s, true⟩ q' (e + 1) max_m max_e
      else
        vmeNormalizeLoopF fuel v q (e + 1) max_m max_e
    else (v, m, e)

/-- The stripping loop at its fuel. -/
def vmeNormalizeLoop (v : VFlag) (m : Nat) (e : Int) (max_m : Nat) (max_e : Int) :
    VFlag × Nat × Int :=
  vmeNormalizeLoopF 64 v m e max_m max_e

/-- vmeNormalizeExposant: clamp a too-small exponent by dividing the mantissa
(rounding half-up, setting loss on a remainder) and a too-big exponent by
multiplying it, degrading to the infinity encoding (m = 0) on overflow. -/
def vmeNormalizeExposant (v : VFlag) (m : Nat) (e : Int) (max_m : Nat) (min_e max_e : Int) :
    VFlag × Nat × Int :=
  let step1 : VFlag × Nat × Int :=
    if e < min_e then
      if min_e - e < 20 then
        let p := tenPowAt (min_e - e).toNat
        let q := m / p
        let r := m % p
        if r ≠ 0 then
          -- round to the nearest; r < p ≤ 10^19 < 2^63 so (r << 1) does not wrap
          (⟨v.s, true⟩, if 2 * r ≥ p then q + 1 else q, min_e)
        else (v, q, min_e)
      else (⟨v.s, true⟩, 0, min_e)
    else (v, m, e)
  let v1 := step1.1
  let m1 := step1.2.1
  let e1 := step1.2.2
  if e1 > max_e then
    if e1 - max_e < 20 then
      let p := tenPowAt (e1 - max_e).toNat
      let h := m1 * p / U64
      let l := m1 * p % U64
      if h = 0 ∨ l < max_m then (v1, l, max_e)
      else (⟨v1.s, true⟩, 0, max_e)
    else (⟨v1.s, true⟩, 0, max_e)
  else (v1, m1, e1)

/-- vmeNormalize of the decimal core (the snake_case generation that pairs
with decimal.go): try an exact re-basing to exponent 0 first, then strip
trailing zeros and clamp the exponent. -/
def vmeNormalize (v : VFlag) (m : Nat) (e : Int) (max_m : Nat) (min_e max_e : Int) :
    VFlag × Nat × Int :=
  if m = 0 then veNormalizeMagic v e min_e max_e
  else
    -- exact re-basing to exponent 0 (only when the loss bit is clear)
    let fast : Option (VFlag × Nat × Int) :=
      if v.l = false then
        if e = 0 then
          if m ≤ max_m then some (v, m, 0) else none
        else if e > 0 then
          if e < 20 then
            -- bits.Mul64(m, ten_pow[e])
            let h := m * tenPowAt e.toNat / U64
            let l := m * tenPowAt e.toNat % U64
            if h = 0 ∧ l ≤ max_m then some (v, l, 0) else none
          else none
        else if m % 2 = 0 then
          if e > -20 then
            -- bits.Div64(0, m, ten_pow[-e])
            let q := m / tenPowAt (-e).toNat
            let r := m % tenPowAt (-e).toNat
            if r = 0 ∧ q ≤ max_m then some (v, q, 0) else none
          else none
        else none
      else none
    match fast with
    | some out => out
    | none =>
      let s := vmeNormalizeLoop v m e max_m max_e
      vmeNormalizeExposant s.1 s.2.1 s.2.2 max_m min_e max_e

/-- The encoding tail of vmeAsDecimal: v |= m | uint64(e<<57)&e_bitmask and
undo the sign.  Normalization guarantees m ≤ MaxInt, so the three fields are
disjoint and the bitwise ors are plain sums. -/
def encodeVme (v : VFlag) (m : Nat) (e : Int) : Decimal :=
  let ef : Nat := (e.emod 32).toNat * expBit
  let word : Nat := (if v.l then lossBit else 0) + ef + m
  if v.s then -(word : Int) else (word : Int)

/-- vmeAsDecimal: build a Decimal from a VME tuple, normalizing first.  A
loss-free zero tuple collapses to Null (all flags clear, e = 0) or Zero. -/
def vmeAsDecimal (v : VFlag) (m : Nat) (e : Int) : Decimal :=
  if m = 0 ∧ v.l = false then
    if v.s = false ∧ e = 0 then Null else Zero
  else
    let r := vmeNormalize v m e MaxInt (-16) 15
    encodeVme r.1 r.2.1 r.2.2

/-- Decimal.vme: decode a Decimal into its VME tuple.  For m = 0 the stored
exponents -16 and 15 are remapped to the math.MinInt64 / math.MaxInt64
sentinels. -/
def vme (d : Decimal) : VFlag × Nat × Int :=
  let u : Nat := if d < 0 then u64 (-d) else u64 d
  let v : VFlag := ⟨decide (d < 0), decide (u / lossBit % 2 = 1)⟩
  let eraw : Nat := u / expBit % 32
  let e0 : Int := if eraw < 16 then (eraw : Int) else (eraw : Int) - 32
  let m : Nat := u % expBit
  let e : Int :=
    if m = 0 then
      if e0 = -16 then minI64 else if e0 = 15 then maxI64 else e0
    else e0
  (v, m, e)

/-- vmeAddMagic1: the Add truth table when the first operand is magic
(m1 = 0 and its loss bit is set: one of the near-zero states, an infinity
or a NaN). -/
def vmeAddMagic1 (v1 : VFlag) (e1 : Int) (v2 : VFlag) (m2 : Nat) (e2 : Int) :
    VFlag × Nat × Int :=
  if e1 = 0 ∨ e1 = minI64 then
    -- d1 is one of the near-zero states
    if m2 = 0 ∧ v2.l = true then
      if v2 = ⟨true, true⟩ ∧ e2 = 0 then (v2, m2, e2)
      else if e2 = minI64 then
        if v1.s = v2.s then (v2, m2, e2) else (⟨true, true⟩, 0, 0)
      else (v2, m2, e2)
    else
      if v2 = ⟨false, false⟩ ∧ m2 = 0 ∧ e2 = 0 then (v1, 0, e1)
      else (⟨v2.s, true⟩, m2, e2)
  else if e1 = maxI64 then
    -- d1 is an infinity
    if m2 = 0 ∧ v2.l = true then
      if e2 = maxI64 then
        if v1.s = v2.s then (v2, m2, e2) else (⟨false, true⟩, 0, 1)
      else if e2 = minI64 then (v1, 0, e1)
      else (v2, m2, e2)
    else (v1, 0, e1)
  else
    -- d1 is NaN
    (v1, 0, e1)

/-- The linear scan of vmeAdd's precision-reduction block: the first k in
[k..j] with h2 < ten_pow[k] divides both scaled mantissas by ten_pow[k]
(setting loss on a remainder); without such a k the Go loop falls through
with everything unchanged.  Returns (v, m2, m1, e). -/
def vmeAddScanF : Nat → VFlag → Nat → Nat → Nat → Nat → Int → Nat → VFlag × Nat × Nat × Int
  | 0, v, _, _, m1, m2, e, _ => (v, m2, m1, e)
  | fuel + 1, v, h2, l2, m1, m2, e, k =>
    let p := tenPowAt k
    if h2 < p then
      let q2 := (h2 * U64 + l2) / p
      let r2 := (h2 * U64 + l2) % p
      let q1 := m1 / p
      let r1 := m1 % p
      (⟨v.s, v.l || decide (r2 ≠ 0) || decide (r1 ≠ 0)⟩, q2, q1, e + (k : Int))
    else vmeAddScanF fuel v h2 l2 m1 m2 e (k + 1)

/-- The scan from k to j: the loop runs at most j + 1 - k times. -/
def vmeAddScan (v : VFlag) (h2 l2 m1 m2 : Nat) (e : Int) (k j : Nat) :
    VFlag × Nat × Nat × Int :=
  vmeAddScanF (j + 1 - k) v h2 l2 m1 m2 e k

/-- The sign/mantissa merge at the end of vmeAdd: same signs add the
mantissas (uint64 wrap), different signs subtract the smaller from the
larger and take that operand's sign; loss bits of both operands are merged
and an exactly-zero sum becomes the canonical zero tuple. -/
def vmeAddFinish (v1 : VFlag) (m1 : Nat) (v2 : VFlag) (m2 : Nat) (v : VFlag) (e : Int) :
    VFlag × Nat × Int :=
  let sm : Bool × Nat :=
    if v1.s = v2.s then (v1.s, (m1 + m2) % U64)
    else if m1 < m2 then (v2.s, m2 - m1) else (v1.s, m1 - m2)
  let vl := v.l || v1.l || v2.l
  if sm.2 = 0 then (⟨true, vl⟩, 0, 0) else (⟨sm.1, vl⟩, sm.2, e)

/-- The body of vmeAdd after the source has swapped the operands so that
e1 ≤ e2: dispatch magic operands, scale the larger-exponent operand down to
e1 (dropping the first operand entirely, with loss, when the gap reaches 20
digits), then merge. -/
def vmeAddCore (v1 : VFlag) (m1 : Nat) (e1 : Int) (v2 : VFlag) (m2 : Nat) (e2 : Int) :
    VFlag × Nat × Int :=
  if m1 = 0 then
    if v1.l then vmeAddMagic1 v1 e1 v2 m2 e2 else (v2, m2, e2)
  else if m2 = 0 then
    if v2.l then vmeAddMagic1 v2 e2 v1 m1 e1 else (v1, m1, e1)
  else
    if e1 < e2 then
      if e2 - e1 < 20 then
        -- bits.Mul64(m2, ten_pow[e2-e1])
        let h2 := m2 * tenPowAt (e2 - e1).toNat / U64
        let l2 := m2 * tenPowAt (e2 - e1).toNat % U64
        if h2 ≠ 0 then
          -- three halving steps narrow the ten_pow range, then a linear scan
          let p1 : Nat × Nat := if h2 < tenPowAt ((1 + 19) / 2) then (1, (1 + 19) / 2) else ((1 + 19) / 2, 19)
          let p2 : Nat × Nat := if h2 < tenPowAt ((p1.1 + p1.2) / 2) then (p1.1, (p1.1 + p1.2) / 2) else ((p1.1 + p1.2) / 2, p1.2)
          let p3 : Nat × Nat := if h2 < tenPowAt ((p2.1 + p2.2) / 2) then (p2.1, (p2.1 + p2.2) / 2) else ((p2.1 + p2.2) / 2, p2.2)
          let s := vmeAddScan ⟨false, false⟩ h2 l2 m1 m2 e1 p3.1 p3.2
          vmeAddFinish v1 s.2.2.1 v2 s.2.1 s.1 s.2.2.2
        else vmeAddFinish v1 m1 v2 l2 ⟨false, false⟩ e1
      else
        -- d1 is negligible compared to d2
        (⟨v2.s, true⟩, m2, e2)
    else vmeAddFinish v1 m1 v2 m2 ⟨false, false⟩ e1

/-- vmeAdd of the decimal core: swap so that e1 ≤ e2, then run the body. -/
def vmeAdd (v1 : VFlag) (m1 : Nat) (e1 : Int) (v2 : VFlag) (m2 : Nat) (e2 : Int) :
    VFlag × Nat × Int :=
  if e1 > e2 then vmeAddCore v2 m2 e2 v1 m1 e1 else vmeAddCore v1 m1 e1 v2 m2 e2

/-- vmeMulMagic1: the Mul truth table when the first operand is magic. -/
def vmeMulMagic1 (v1 : VFlag) (m1 : Nat) (e1 : Int) (v2 : VFlag) (m2 : Nat) (e2 : Int) :
    VFlag × Nat × Int :=
  if e1 = 0 then
    -- d1 is the unsigned near zero
    if m2 = 0 then
      if v2.l then
        if e2 ≠ 0 ∧ e2 ≠ minI64 then (⟨false, true⟩, 0, 1) else (⟨true, true⟩, 0, 0)
      else (⟨true, false⟩, 0, 0)
    else (⟨true, true⟩, 0, 0)
  else if e1 = minI64 then
    -- d1 is a signed near zero
    if m2 = 0 then
      if v2.l then
        if e2 ≠ 0 ∧ e2 ≠ minI64 then (⟨false, true⟩, 0, 1)
        else if e2 = 0 then (⟨true, true⟩, 0, 0)
        else (⟨v1.s != v2.s, true⟩, 0, minI64)
      else (⟨true, false⟩, 0, 0)
    else (⟨v1.s != v2.s, true⟩, 0, minI64)
  else if e1 = maxI64 then
    -- d1 is an infinity
    if m2 = 0 then
      if v2.l then
        if e2 ≠ 0 ∧ e2 ≠ maxI64 then (⟨false, true⟩, 0, 1)
        else (⟨v1.s != v2.s, true⟩, 0, maxI64)
      else (⟨false, true⟩, 0, 1)
    else (⟨v1.s != v2.s, true⟩, 0, maxI64)
  else
    -- d1 is NaN
    (⟨false, true⟩, 0, 1)

/-- int64 addition with two's-complement wrap-around. -/
def wrap64 (x : Int) : Int :=
  ((x + 9223372036854775808).emod 18446744073709551616) - 9223372036854775808

/-- The range-scan of vmhmeReduce: the first i with mh < ten_pow[i] divides
the 128-bit mantissa by ten_pow[i], rounding to nearest and setting loss on
a remainder.  Returns (v, mh, m, e). -/
def vmhmeReduceScanF : Nat → VFlag → Nat → Nat → Int → Nat → VFlag × Nat × Nat × Int
  | 0, v, mh, m, e, _ => (v, mh, m, e)
  | fuel + 1, v, mh, m, e, i =>
    let p := tenPowAt i
    if mh < p then
      let q := (mh * U64 + m) / p
      let r := (mh * U64 + m) % p
      -- r < p ≤ 10^19 < 2^63, so (r << 1) does not wrap
      let q' := if r ≠ 0 ∧ 2 * r ≥ p then q + 1 else q
      (⟨v.s, v.l || decide (r ≠ 0)⟩, 0, q', e + (i : Int))
    else vmhmeReduceScanF fuel v mh m e (i + 1)

/-- The range loop over the 20 entries of ten_pow. -/
def vmhmeReduceScan (v : VFlag) (mh m : Nat) (e : Int) (i : Nat) :
    VFlag × Nat × Nat × Int :=
  vmhmeReduceScanF (20 - i) v mh m e i

/-- vmhmeReduce: reduce a 128-bit product mantissa (mh, m) to one uint64
word by dividing by the smallest sufficient power of ten; an mh of 10^19 or
more needs one extra division by 10 first. -/
def vmhmeReduce (v : VFlag) (mh m : Nat) (e : Int) : VFlag × Nat × Int :=
  let s1 := if mh > 0 then vmhmeReduceScan v mh m e 0 else (v, mh, m, e)
  let v1 := s1.1
  let mh1 := s1.2.1
  let m1 := s1.2.2.1
  let e1 := s1.2.2.2
  if mh1 > 0 then
    let qh := mh1 / 10
    let rh := mh1 % 10
    let qm := (rh * U64 + m1) / 10
    let rm := (rh * U64 + m1) % 10
    let qm' := if rm ≠ 0 ∧ rm ≥ 5 then (qm + 1) % U64 else qm
    let vl := v1.l || decide (rm ≠ 0)
    let p := tenPowAt 19
    let q := (qh * U64 + qm') / p
    let r := (qh * U64 + qm') % p
    (⟨v1.s, vl || decide (r ≠ 0)⟩, q, e1 + 1 + 19)
  else (v1, m1, e1)

/-- vmeMul of the decimal core: magic operands dispatch to the truth table;
ordinary operands multiply mantissas in 128 bits, add exponents with an
int64 overflow check, and reduce. -/
def vmeMul (v1 : VFlag) (m1 : Nat) (e1 : Int) (v2 : VFlag) (m2 : Nat) (e2 : Int) :
    VFlag × Nat × Int :=
  if m1 = 0 then
    if v1.l then vmeMulMagic1 v1 m1 e1 v2 m2 e2 else (⟨true, false⟩, 0, 0)
  else if m2 = 0 then
    if v2.l then vmeMulMagic1 v2 m2 e2 v1 m1 e1 else (⟨true, false⟩, 0, 0)
  else
    let v : VFlag := ⟨v1.s != v2.s, v1.l || v2.l⟩
    let e := wrap64 (e1 + e2)
    if e < e1 ∧ e2 > 0 then (⟨v.s, true⟩, 0, maxI64)
    else if e > e1 ∧ e2 < 0 then (⟨v.s, true⟩, 0, minI64)
    else
      let mh := m1 * m2 / U64
      let m := m1 * m2 % U64
      vmhmeReduce v mh m e

/-- vmeDivRemMagic2: the QuoRem truth table when the divisor is magic. -/
def vmeDivRemMagic2 (v1 : VFlag) (m1 : Nat) (e1 : Int) (v2 : VFlag) (e2 : Int) :
    VFlag × Nat × Int × Nat × Int :=
  if e2 = 0 then (⟨false, true⟩, 0, 1, 0, 0)
  else if e2 = minI64 then
    if m1 = 0 then
      if v1.l then
        if e1 = 0 ∨ e1 = minI64 then (⟨false, true⟩, 0, 1, 0, 0)
        else if e1 = maxI64 then (⟨v1.s != v2.s, true⟩, 0, maxI64, 0, 0)
        else (⟨false, true⟩, 0, 1, 0, 0)
      else (⟨false, true⟩, 0, 1, 0, 0)
    else (⟨v1.s != v2.s, true⟩, 0, maxI64, 0, 0)
  else if e2 = maxI64 then
    if m1 = 0 then
      if v1.l then
        if e1 = 0 then (⟨true, true⟩, 0, 0, 0, 0)
        else if e1 = minI64 then (⟨v1.s && v2.s, true⟩, 0, minI64, 0, 0)
        else (⟨false, true⟩, 0, 1, 0, 0)
      else (⟨true, true⟩, 0, 0, 0, 0)
    else (⟨v1.s != v2.s, true⟩, 0, minI64, 0, 0)
  else (⟨false, true⟩, 0, 1, 0, 0)

/-- The h1-reduction scan of vmeDivRem (run when m2 ≤ h1 would make
bits.Div64 panic): the first i with h1 < ten_pow[i] divides the 128-bit
numerator by ten_pow[i] with loss.  Returns (v, h1, l1, e). -/
def vmeDivRemReduceScanF : Nat → VFlag → Nat → Nat → Int → Nat → VFlag × Nat × Nat × Int
  | 0, v, h1, l1, e, _ => (v, h1, l1, e)
  | fuel + 1, v, h1, l1, e, i =>
    let p := tenPowAt i
    if h1 < p then
      let q := (h1 * U64 + l1) / p
      let r := (h1 * U64 + l1) % p
      (⟨v.s, v.l || decide (r ≠ 0)⟩, 0, q, e + (i : Int))
    else vmeDivRemReduceScanF fuel v h1 l1 e (i + 1)

/-- The range loop over the 20 entries of ten_pow. -/
def vmeDivRemReduceScan (v : VFlag) (h1 l1 : Nat) (e : Int) (i : Nat) :
    VFlag × Nat × Nat × Int :=
  vmeDivRemReduceScanF (20 - i) v h1 l1 e i

/-- vmeDivRem of the decimal core: returns (v, m, e, rem, reme).  The
quotient mantissa is floor(m1 * 10^ten_pow_i / m2) at exponent
e1 - e2 - ten_pow_i; the remainder is returned against exponent
reme = e2 - precision (with the source's unresolved adjustment when the
requested shift was negative). -/
def vmeDivRem (v1 : VFlag) (m1 : Nat) (e1 : Int) (v2 : VFlag) (m2 : Nat) (e2 : Int)
    (precision : Int) : VFlag × Nat × Int × Nat × Int :=
  if m2 = 0 then
    if v2.l then vmeDivRemMagic2 v1 m1 e1 v2 e2 else (⟨false, true⟩, 0, 1, 0, 0)
  else if m1 = 0 then
    if v1.l then (⟨v1.s != v2.s, true⟩, 0, e1, 0, 0) else (⟨true, false⟩, 0, 0, 0, 0)
  else
    let v : VFlag := ⟨v1.s != v2.s, v1.l || v2.l⟩
    let e0 := e1 - e2
    let rt : Int × Int := if e0 + precision < 0 then (-precision + (e0 + precision), 0) else (-precision, e0 + precision)
    let re1 := rt.1
    let tpi := if rt.2 ≥ 20 then (19 : Int) else rt.2
    let e := e0 - tpi
    -- bits.Mul64(m1, ten_pow[ten_pow_i])
    let h1 := m1 * tenPowAt tpi.toNat / U64
    let l1 := m1 * tenPowAt tpi.toNat % U64
    let s := if m2 ≤ h1 then vmeDivRemReduceScan v h1 l1 e 0 else (v, h1, l1, e)
    let v3 := s.1
    let h1' := s.2.1
    let l1' := s.2.2.1
    let e3 := s.2.2.2
    let m := (h1' * U64 + l1') / m2
    let r := (h1' * U64 + l1') % m2
    let mr : Nat × Nat :=
      if re1 < -precision then
        let p := tenPowAt (-precision - re1).toNat
        let xq := m / p
        let xr := m % p
        (xq * p, (r + xr * m2) % U64)
      else (m, r)
    (v3, mr.1, e3, mr.2, re1 + e2)

/-- vmeRound: round half away from zero for positive operands; negative
operands increment only on a remainder strictly above the half (ties fall
toward zero).  Near-zero states collapse to Zero; other magic passes
through; the loss bit is always cleared. -/
def vmeRound (v : VFlag) (m : Nat) (e : Int) (places : Int) : VFlag × Nat × Int :=
  if m = 0 then
    if e = 0 ∨ e = minI64 then (⟨true, false⟩, 0, 0) else (v, m, e)
  else
    let v : VFlag := ⟨v.s, false⟩
    if e + places < 0 then
      if -(e + places) < 20 then
        let p := tenPowAt (-(e + places)).toNat
        if 2 * m % U64 < p then (⟨true, false⟩, 0, 0)
        else
          let q := m / p
          let r := m % p
          -- r < p ≤ 10^19 < 2^63, so (r << 1) does not wrap
          let q' := if 2 * r > p ∨ (2 * r = p ∧ v.s = false) then q + 1 else q
          (v, q', -places)
      else (⟨true, false⟩, 0, 0)
    else (v, m, e)

/-- vmeRoundBank: like vmeRound but ties go to the even quotient. -/
def vmeRoundBank (v : VFlag) (m : Nat) (e : Int) (places : Int) : VFlag × Nat × Int :=
  if m = 0 then
    if e = 0 ∨ e = minI64 then (⟨true, false⟩, 0, 0) else (v, m, e)
  else
    let v : VFlag := ⟨v.s, false⟩
    if e + places < 0 then
      if -(e + places) < 20 then
        let p := tenPowAt (-(e + places)).toNat
        if 2 * m % U64 < p then (⟨true, false⟩, 0, 0)
        else
          let q := m / p
          let r := m % p
          let q' := if 2 * r > p ∨ (2 * r = p ∧ q % 2 = 1) then q + 1 else q
          (v, q', -places)
      else (⟨true, false⟩, 0, 0)
    else (v, m, e)

/-- vmeRoundCeil: any nonzero remainder rounds a positive operand up; a
positive value below the rounding unit becomes the first decimal above
zero. -/
def vmeRoundCeil (v : VFlag) (m : Nat) (e : Int) (places : Int) : VFlag × Nat × Int :=
  if m = 0 then
    if e = 0 ∨ e = minI64 then (⟨true, false⟩, 0, 0) else (v, m, e)
  else
    let v : VFlag := ⟨v.s, false⟩
    if e + places < 0 then
      if -(e + places) < 20 then
        let p := tenPowAt (-(e + places)).toNat
        if 2 * m % U64 < p then
          if v.s = false then (⟨false, false⟩, 1, -places) else (⟨true, false⟩, 0, 0)
        else
          let q := m / p
          let r := m % p
          let q' := if r > 0 ∧ v.s = false then q + 1 else q
          (v, q', -places)
      else (⟨true, false⟩, 0, 0)
    else (v, m, e)

/-- vmeRoundFloor: mirror image of vmeRoundCeil. -/
def vmeRoundFloor (v : VFlag) (m : Nat) (e : Int) (places : Int) : VFlag × Nat × Int :=
  if m = 0 then
    if e = 0 ∨ e = minI64 then (⟨true, false⟩, 0, 0) else (v, m, e)
  else
    let v : VFlag := ⟨v.s, false⟩
    if e + places < 0 then
      if -(e + places) < 20 then
        let p := tenPowAt (-(e + places)).toNat
        if 2 * m % U64 < p then
          if v.s = true then (⟨true, false⟩, 1, -places) else (⟨true, false⟩, 0, 0)
        else
          let q := m / p
          let r := m % p
          let q' := if r > 0 ∧ v.s = true then q + 1 else q
          if q' = 0 ∧ places = 0 then (⟨true, false⟩, 0, 0)
          else (v, q', -places)
      else (⟨true, false⟩, 0, 0)
    else (v, m, e)

/-- Decimal.Add. -/
def Decimal.Add (d1 d2 : Decimal) : Decimal :=
  let t1 := vme d1
  let t2 := vme d2
  let r := vmeAdd t1.1 t1.2.1 t1.2.2 t2.1 t2.2.1 t2.2.2
  vmeAsDecimal r.1 r.2.1 r.2.2

/-- Decimal.Sub = d1.Add(-d2) with Go's wrapping unary minus. -/
def Decimal.Sub (d1 d2 : Decimal) : Decimal := Decimal.Add d1 (int64Neg d2)

/-- Decimal.Mul. -/
def Decimal.Mul (d1 d2 : Decimal) : Decimal :=
  let t1 := vme d1
  let t2 := vme d2
  let r := vmeMul t1.1 t1.2.1 t1.2.2 t2.1 t2.2.1 t2.2.2
  vmeAsDecimal r.1 r.2.1 r.2.2

/-- Decimal.QuoRem. -/
def Decimal.QuoRem (d1 d2 : Decimal) (precision : Int) : Decimal × Decimal :=
  let t1 := vme d1
  let t2 := vme d2
  let r := vmeDivRem t1.1 t1.2.1 t1.2.2 t2.1 t2.2.1 t2.2.2 precision
  (vmeAsDecimal r.1 r.2.1 r.2.2.1, vmeAsDecimal r.1 r.2.2.2.1 r.2.2.2.2)

/-- Decimal.Mod = the remainder of QuoRem at precision 0. -/
def Decimal.Mod (d1 d2 : Decimal) : Decimal := (Decimal.QuoRem d1 d2 0).2

/-- Decimal.Div: QuoRem at DivisionPrecision = 16, forcing loss and rounding
half-up on a nonzero remainder. -/
def Decimal.Div (d1 d2 : Decimal) : Decimal :=
  let t1 := vme d1
  let t2 := vme d2
  let r := vmeDivRem t1.1 t1.2.1 t1.2.2 t2.1 t2.2.1 t2.2.2 16
  let v := r.1
  let m := r.2.1
  let e := r.2.2.1
  let rem := r.2.2.2.1
  if rem ≠ 0 then
    -- (rem << 1) wraps mod 2^64 before the comparison
    let m' := if 2 * rem % U64 ≥ t2.2.1 then m + 1 else m
    vmeAsDecimal ⟨v.s, true⟩ m' e
  else vmeAsDecimal v m e

/-- Decimal.Round. -/
def Decimal.Round (d : Decimal) (places : Int) : Decimal :=
  let t := vme d
  let r := vmeRound t.1 t.2.1 t.2.2 places
  vmeAsDecimal r.1 r.2.1 r.2.2

/-- Decimal.RoundBank. -/
def Decimal.RoundBank (d : Decimal) (places : Int) : Decimal :=
  let t := vme d
  let r := vmeRoundBank t.1 t.2.1 t.2.2 places
  vmeAsDecimal r.1 r.2.1 r.2.2

/-- Decimal.RoundCeil. -/
def Decimal.RoundCeil (d : Decimal) (places : Int) : Decimal :=
  let t := vme d
  let r := vmeRoundCeil t.1 t.2.1 t.2.2 places
  vmeAsDecimal r.1 r.2.1 r.2.2

/-- Decimal.RoundFloor. -/
def Decimal.RoundFloor (d : Decimal) (places : Int) : Decimal :=
  let t := vme d
  let r := vmeRoundFloor t.1 t.2.1 t.2.2 places
  vmeAsDecimal r.1 r.2.1 r.2.2

/-- Decimal.Abs (Go negation wraps at math.MinInt64, so Zero.Abs() = Zero). -/
def Decimal.Abs (d : Decimal) : Decimal := if d < 0 then int64Neg d else d

/-- Decimal.IsExactlyZero: the word is 0 except possibly the sign bit,
i.e. d is Null or Zero. -/
def Decimal.IsExactlyZero (d : Decimal) : Bool :=
  u64 d % 9223372036854775808 = 0

/-- Decimal.IsZero: Null, Zero or one of the near-zero states (including
-NearZero = 2^62, which can occur). -/
def Decimal.IsZero (d : Decimal) : Bool :=
  Decimal.IsExactlyZero d || d = NearZero || d = 4611686018427387904 ||
    d = NearPositiveZero || d = NearNegativeZero

/-- Decimal.IsNaN: a magic word whose exponent field is NaN-boxed. -/
def Decimal.IsNaN (d : Decimal) : Bool :=
  let u := u64 (Decimal.Abs d)
  if u % expBit = 0 then
    let x := u / 72057594037927936
    (66 ≤ x ∧ x < 92) ∨ (98 ≤ x ∧ x ≤ 126)
  else false

/-- Decimal.IsPositive. -/
def Decimal.IsPositive (d : Decimal) : Bool := decide (0 < d) && !(Decimal.IsNaN d)

/-- Decimal.Equal: d1 == d2 up to the tolerant zero classes, computed as
IsZero(d1 - d2). -/
def Decimal.Equal (d1 d2 : Decimal) : Bool := Decimal.IsZero (Decimal.Sub d1 d2)

/-- Decimal.Compare: sign-classify d1 - d2. -/
def Decimal.Compare (d1 d2 : Decimal) : Int :=
  let d := Decimal.Sub d1 d2
  if Decimal.IsZero d then 0 else if Decimal.IsPositive d then 1 else -1

/-- New(value, exp) = value * 10^exp. -/
def New (value : Int) (exp : Int) : Decimal :=
  if value = 0 then Zero
  else if value < 0 then vmeAsDecimal ⟨true, false⟩ (-value).toNat exp
  else vmeAsDecimal ⟨false, false⟩ value.toNat exp

/-- NewFromInt: an int64 within ±MaxInt is stored as its own bit pattern. -/
def NewFromInt (value : Int) : Decimal :=
  if value < 0 then
    if value ≥ -144115188075855871 then value
    else vmeAsDecimal ⟨true, false⟩ (-value).toNat 0
  else
    if value ≤ 144115188075855871 then
      if value = 0 then Zero else value
    else vmeAsDecimal ⟨false, false⟩ value.toNat 0

/-- encoding/binary PutUvarint: emit 7 bits per byte, low bits first, with
the high bit of a byte as the continuation flag. -/
def putUvarintF : Nat → Nat → List Nat
  | 0, x => [x]
  | fuel + 1, x =>
    if x < 128 then [x]
    else (x % 128 + 128) :: putUvarintF fuel (x / 128)

/-- A uint64 needs at most 10 varint bytes, so the fuel of 10 is never
exhausted for x < 2^64. -/
def putUvarint (x : Nat) : List Nat := putUvarintF 10 x

/-- The loop of encoding/binary Uvarint: acc is the bits decoded so far, s
the current shift, i the byte index; a varint longer than 10 bytes or
carrying a 65th bit is rejected (n <= 0 in Go, none here). -/
def uvarintAux : List Nat → Nat → Nat → Nat → Option Nat
  | [], _, _, _ => none
  | b :: rest, acc, s, i =>
    let b := b % 256
    if i = 10 then none
    else if b < 128 then
      if i = 9 ∧ b > 1 then none
      else some (acc ||| b * 2 ^ s % U64)
    else uvarintAux rest (acc ||| b % 128 * 2 ^ s % U64) (s + 7) (i + 1)

/-- encoding/binary Uvarint (some value iff Go returns n > 0). -/
def uvarint (buf : List Nat) : Option Nat := uvarintAux buf 0 0 0

/-- Decimal.MarshalBinary: the first byte carries the sign, loss and
high exponent bits (bits 56..63 of the magnitude word, with the sign forced
on for negative values); its low bit says whether a varint of the 57
mantissa bits follows. -/
def MarshalBinary (d : Decimal) : List Nat :=
  let u : Nat := if d < 0 then u64 (-d) else u64 d
  let x : Nat :=
    if d < 0 then (if u < signBit then u + signBit else u) / 72057594037927936 % 256
    else u / 72057594037927936 % 256
  let um := u % expBit
  if um = 0 then [x]
  else (if x % 2 = 1 then x else x + 1) :: putUvarint um

/-- Decimal.UnmarshalBinary (some value iff Go returns a nil error). -/
def UnmarshalBinary (data : List Nat) : Option Decimal :=
  match data with
  | [] => none
  | b0 :: rest =>
    let u0 : Nat := b0 % 256 * 72057594037927936
    let cont : Option Nat :=
      if b0 % 256 % 2 = 1 then
        -- clear the continuation bit (bit 56 of u0 is set) and or the varint in
        match uvarint rest with
        | none => none
        | some m => some ((u0 - 72057594037927936) ||| m)
      else some u0
    match cont with
    | none => none
    | some u =>
      if signBit ≤ u ∧ u ≠ signBit then some (-((u - signBit : Nat) : Int))
      else some (ofU64 u)

/-- The panic-instrumented ten_pow access: Go panics (index out of range)
outside 0..19. -/
def tenPowAtP (i : Int) : Option Nat :=
  if 0 ≤ i ∧ i < 20 then some (tenPowAt i.toNat) else none

/-- The panic-instrumented bits.Div64: Go panics when the divisor is zero or
does not exceed the high word. -/
def div64P (hi lo y : Nat) : Option (Nat × Nat) :=
  if y = 0 ∨ y ≤ hi then none else some ((hi * U64 + lo) / y, (hi * U64 + lo) % y)

/-- The panic-instrumented copy of vmeDivRem: identical control flow, with
every ten_pow index and every bits.Div64 call checked; none = the Go code
panics. -/
def vmeDivRemP (v1 : VFlag) (m1 : Nat) (e1 : Int) (v2 : VFlag) (m2 : Nat) (e2 : Int)
    (precision : Int) : Option (VFlag × Nat × Int × Nat × Int) :=
  if m2 = 0 then
    if v2.l then some (vmeDivRemMagic2 v1 m1 e1 v2 e2) else some (⟨false, true⟩, 0, 1, 0, 0)
  else if m1 = 0 then
    if v1.l then some (⟨v1.s != v2.s, true⟩, 0, e1, 0, 0) else some (⟨true, false⟩, 0, 0, 0, 0)
  else
    let v : VFlag := ⟨v1.s != v2.s, v1.l || v2.l⟩
    let e0 := e1 - e2
    let rt : Int × Int := if e0 + precision < 0 then (-precision + (e0 + precision), 0) else (-precision, e0 + precision)
    let re1 := rt.1
    let tpi := if rt.2 ≥ 20 then (19 : Int) else rt.2
    let e := e0 - tpi
    match tenPowAtP tpi with
    | none => none
    | some p0 =>
      let h1 := m1 * p0 / U64
      let l1 := m1 * p0 % U64
      let s := if m2 ≤ h1 then vmeDivRemReduceScan v h1 l1 e 0 else (v, h1, l1, e)
      let v3 := s.1
      let h1' := s.2.1
      let l1' := s.2.2.1
      let e3 := s.2.2.2
      match div64P h1' l1' m2 with
      | none => none
      | some (m, r) =>
        if re1 < -precision then
          match tenPowAtP (-precision - re1) with
          | none => none
          | some p =>
            match div64P 0 m p with
            | none => none
            | some (xq, xr) => some (v3, xq * p, e3, (r + xr * m2) % U64, re1 + e2)
        else some (v3, m, e3, r, re1 + e2)

/-- The panic-instrumented Decimal.QuoRem (only the core division can
panic; none = the Go code panics). -/
def QuoRemP (d1 d2 : Decimal) (precision : Int) : Option (Decimal × Decimal) :=
  let t1 := vme d1
  let t2 := vme d2
  match vmeDivRemP t1.1 t1.2.1 t1.2.2 t2.1 t2.2.1 t2.2.2 precision with
  | none => none
  | some r => some (vmeAsDecimal r.1 r.2.1 r.2.2.1, vmeAsDecimal r.1 r.2.2.2.1 r.2.2.2.2)

/-- ASCII whitespace (unicode.IsSpace restricted to the ASCII bytes; every
literal this development evaluates is ASCII). -/
def isAsciiSpace (c : Nat) : Bool := c = 32 ∨ (9 ≤ c ∧ c ≤ 13)

/-- bytes.TrimSpace on ASCII input. -/
def trimSpace (b : List Nat) : List Nat :=
  ((b.dropWhile isAsciiSpace).reverse.dropWhile isAsciiSpace).reverse

/-- ASCII lower-casing (bytes.ToLower on ASCII input). -/
def asciiToLower (c : Nat) : Nat := if 65 ≤ c ∧ c ≤ 90 then c + 32 else c

/-- strconv.ParseInt(s, 10, 64): optional sign, at least one digit, all
digits, result within the int64 range; none = Go returns an error. -/
def parseInt (b : List Nat) : Option Int :=
  if b = [] then none
  else
    let st : Bool × List Nat :=
      if b.head? = some 43 then (false, b.tail)
      else if b.head? = some 45 then (true, b.tail)
      else (false, b)
    let digits := st.2
    if digits = [] then none
    else if digits.all (fun c => decide (48 ≤ c ∧ c ≤ 57)) then
      let n : Nat := digits.foldl (fun a c => a * 10 + (c - 48)) 0
      if st.1 then if n ≤ 9223372036854775808 then some (-(n : Int)) else none
      else if n ≤ 9223372036854775807 then some (n : Int) else none
    else none

/-- vmeMagicFromBytes: the trailing-token vocabulary of the decimal parser
(the byte lists spell on, yes, no, off, nan, nil, null and inf). -/
def vmeMagicFromBytes (b : List Nat) (v : VFlag) (m : Nat) (e : Int) (parsedSign : Bool) :
    Option (VFlag × Nat × Int) :=
  let lb := b.map asciiToLower
  if lb = [111, 110] ∨ lb = [121, 101, 115] then some (v, 1, 0)
  else if lb = [110, 111] ∨ lb = [111, 102, 102] then
    if v.l = false ∨ parsedSign = false then some (⟨true, v.l⟩, 0, 0)
    else some (v, 0, minI64)
  else if lb = [110, 97, 110] then some (⟨false, true⟩, 0, 1)
  else if lb = [110, 105, 108] ∨ lb = [110, 117, 108, 108] then some (⟨false, false⟩, 0, 0)
  else if lb = [105, 110, 102] then some (⟨v.s, true⟩, 0, maxI64)
  else none

/-- The m = 0 fix-ups at the end of vmeFromBytes: a lost zero with an
explicit sign becomes a signed near zero, without one the unsigned near
zero; an exact zero becomes the canonical zero tuple. -/
def vmeFromBytesFinish (v : VFlag) (parsedSign : Bool) (m : Nat) (e : Int) :
    Option (VFlag × Nat × Int) :=
  if m = 0 then
    if v.l then
      if parsedSign then some (v, 0, minI64) else some (⟨true, v.l⟩, 0, 0)
    else some (⟨true, false⟩, 0, 0)
  else some (v, m, e)

/-- The digit/point scanning loop of vmeFromBytes.  The source only ever
compares the recorded dot index against 0, so it is represented by the
boolean dotSeen.  An unrecognized byte hands the whole remaining slice to
vmeMagicFromBytes. -/
def vmeFromBytesLoop (v : VFlag) (parsedSign : Bool) (m : Nat) (e : Int) (dotSeen : Bool)
    (rest : List Nat) : Option (VFlag × Nat × Int) :=
  match rest with
  | [] => vmeFromBytesFinish v parsedSign m e
  | c :: tl =>
    if 48 ≤ c ∧ c ≤ 57 then
      -- bits.Mul64(m, 10): append the digit while the mantissa still fits
      let h := m * 10 / U64
      let l := m * 10 % U64
      if h = 0 then
        let e' := if dotSeen ∧ e ≤ 0 then e - 1 else if ¬dotSeen ∧ e > 0 then e + 1 else e
        vmeFromBytesLoop v parsedSign (l + (c - 48)) e' dotSeen tl
      else
        let v' := if e ≥ 0 ∧ c ≠ 48 then ⟨v.s, true⟩ else v
        let e' := if ¬dotSeen then e + 1 else e
        vmeFromBytesLoop v' parsedSign m e' dotSeen tl
    else if c = 46 then
      if ¬dotSeen then vmeFromBytesLoop v parsedSign m e true tl else none
    else if c = 101 ∨ c = 69 then
      match parseInt tl with
      | some de => vmeFromBytesFinish v parsedSign m (e + de)
      | none => none
    else vmeMagicFromBytes (c :: tl) v m e parsedSign

/-- vmeFromBytes of the decimal core: trim space, strip one matching pair of
quotes, accept the explicit-imprecision marker before or after the sign,
then scan.  none = Go returns a non-nil error. -/
def vmeFromBytes (b0 : List Nat) : Option (VFlag × Nat × Int) :=
  let b1 := trimSpace b0
  let b :=
    if 2 ≤ b1.length ∧ ((b1.head? = some 34 ∧ b1.getLast? = some 34) ∨
        (b1.head? = some 39 ∧ b1.getLast? = some 39)) then (b1.drop 1).dropLast
    else b1
  if b = [] then some (⟨false, false⟩, 0, 0)
  else
    let t1 : Bool × List Nat := if b.head? = some 126 then (true, b.tail) else (false, b)
    if t1.2 = [] then none
    else
      let t2 : Bool × Bool × List Nat :=
        if t1.2.head? = some 43 then (false, true, t1.2.tail)
        else if t1.2.head? = some 45 then (true, true, t1.2.tail)
        else (false, false, t1.2)
      if t2.2.2 = [] then none
      else
        let t3 : Bool × List Nat :=
          if t2.2.2.head? = some 126 then (true, t2.2.2.tail) else (false, t2.2.2)
        if t3.2 = [] then none
        else vmeFromBytesLoop ⟨t2.1, t1.1 || t3.1⟩ t2.2.1 0 0 false t3.2

/-- NewFromBytes. -/
def NewFromBytes (b : List Nat) : Option Decimal :=
  match vmeFromBytes b with
  | some r => some (vmeAsDecimal r.1 r.2.1 r.2.2)
  | none => none

/-- The bytes of an ASCII string. -/
def strBytes (s : String) : List Nat := s.data.map Char.toNat

/-- NewFromString. -/
def NewFromString (s : String) : Option Decimal := NewFromBytes (strBytes s)

/-- The v word of a Weight VME tuple: sign bit, loss bit, and the 4-bit
unit tag (bits 53..56), the latter stored as the index 0..15. -/
structure WFlag where
  s : Bool
  l : Bool
  t : Nat
deriving DecidableEq, Repr

/-- 2^53, the weight of the unit-tag field (weightBitT = 53). -/
def wtBit : Nat := 9007199254740992

/-- WeightMaxInt = 2^53 - 1, the Weight mantissa mask. -/
def WeightMaxInt : Nat := 9007199254740991

/-- weightUnits: (name, conversion-to-base Decimal c) by tag index.  The c
of the SI units is a plain small integer (a power-of-ten shift); the
avoirdupois/troy units carry a packed decimal conversion factor. -/
def weightUnits (i : Nat) : String × Decimal :=
  match i with
  | 0 => ("kg", 0)
  | 1 => ("t", 3)
  | 2 => ("kt", 6)
  | 3 => ("Mt", 9)
  | 4 => ("Gt", 12)
  | 5 => ("g", -3)
  | 6 => ("mg", -6)
  | 7 => ("µg", -9)
  | 8 => ("ng", -12)
  | 9 => ("pg", -15)
  | 12 => ("lb", 45359237 + 24 * 144115188075855872)
  | 13 => ("oz", 28349523125 + 20 * 144115188075855872)
  | 14 => (" lb t", 3732417216 + 22 * 144115188075855872)
  | 15 => (" oz t", 311034768 + 22 * 144115188075855872)
  | _ => ("", 0)

namespace WCore

/-- veNormalizeMagic of the weight-generation core: like the decimal one,
but a lossy magic value at exponent 0 gets its sign bit forced on. -/
def veNormalizeMagic (v : WFlag) (e minE maxE : Int) : WFlag × Nat × Int :=
  if v.l = false then (v, 0, 0)
  else if e < minE then (v, 0, minE)
  else if e > maxE then (v, 0, maxE)
  else if e = 0 then (⟨true, v.l, v.t⟩, 0, 0)
  else (v, 0, e)

/-- The trailing-zero stripping loop of the weight-generation vmeNormalize
(same algorithm as the decimal one). -/
def vmeNormalizeLoopF : Nat → WFlag → Nat → Int → Nat → Int → WFlag × Nat × Int
  | 0, v, m, e, _, _ => (v, m, e)
  | fuel + 1, v, m, e, maxM, maxE =>
    if m > maxM ∨ (e ≤ maxE ∧ m > 9 ∧ m % 2 = 0) then
      let q := m / 10
      let r := m % 10
      if r ≠ 0 then
        if m ≤ maxM then (v, m, e)
        else
          let q' := if r > 5 ∨ (r = 5 ∧ q % 2 = 1) then q + 1 else q
          vmeNormalizeLoopF fuel ⟨v.s, true, v.t⟩ q' (e + 1) maxM maxE
      else vmeNormalizeLoopF fuel v q (e + 1) maxM maxE
    else (v, m, e)

/-- The stripping loop at its fuel (never exhausted: m < 2^64 shrinks every
iteration). -/
def vmeNormalizeLoop (v : WFlag) (m : Nat) (e : Int) (maxM : Nat) (maxE : Int) :
    WFlag × Nat × Int :=
  vmeNormalizeLoopF 64 v m e maxM maxE

/-- vmeNormalizeExponent of the weight-generation core. -/
def vmeNormalizeExponent (v : WFlag) (m : Nat) (e : Int) (maxM : Nat) (minE maxE : Int) :
    WFlag × Nat × Int :=
  let step1 : WFlag × Nat × Int :=
    if e < minE then
      if minE - e < 20 then
        let p := tenPowAt (minE - e).toNat
        let q := m / p
        let r := m % p
        if r ≠ 0 then (⟨v.s, true, v.t⟩, if 2 * r ≥ p then q + 1 else q, minE)
        else (v, q, minE)
      else (⟨v.s, true, v.t⟩, 0, minE)
    else (v, m, e)
  let v1 := step1.1
  let m1 := step1.2.1
  let e1 := step1.2.2
  if e1 > maxE then
    if e1 - maxE < 20 then
      let p := tenPowAt (e1 - maxE).toNat
      let h := m1 * p / U64
      let l := m1 * p % U64
      if h = 0 ∨ l < maxM then (v1, l, maxE)
      else (⟨v1.s, true, v1.t⟩, 0, maxE)
    else (⟨v1.s, true, v1.t⟩, 0, maxE)
  else (v1, m1, e1)

/-- vmeNormalize of the weight-generation core. -/
def vmeNormalize (v : WFlag) (m : Nat) (e : Int) (maxM : Nat) (minE maxE : Int) :
    WFlag × Nat × Int :=
  if m = 0 then veNormalizeMagic v e minE maxE
  else
    let fast : Option (WFlag × Nat × Int) :=
      if v.l = false then
        if e = 0 then
          if m ≤ maxM then some (v, m, 0) else none
        else if e > 0 then
          if e < 20 then
            let h := m * tenPowAt e.toNat / U64
            let l := m * tenPowAt e.toNat % U64
            if h = 0 ∧ l ≤ maxM then some (v, l, 0) else none
          else none
        else if m % 2 = 0 then
          if e > -20 then
            let q := m / tenPowAt (-e).toNat
            let r := m % tenPowAt (-e).toNat
            if r = 0 ∧ q ≤ maxM then some (v, q, 0) else none
          else none
        else none
      else none
    match fast with
    | some out => out
    | none =>
      let s := vmeNormalizeLoop v m e maxM maxE
      vmeNormalizeExponent s.1 s.2.1 s.2.2 maxM minE maxE

/-- vmeAddMagic1 of the weight-generation core: as in the decimal core,
except that the null test on the second operand ignores its sign bit
(v2|sign == sign) and the constants carry no unit bits. -/
def vmeAddMagic1 (v1 : WFlag) (e1 : Int) (v2 : WFlag) (m2 : Nat) (e2 : Int) :
    WFlag × Nat × Int :=
  if e1 = 0 ∨ e1 = minI64 then
    if m2 = 0 ∧ v2.l = true then
      if v2 = ⟨true, true, 0⟩ ∧ e2 = 0 then (v2, m2, e2)
      else if e2 = minI64 then
        if v1.s = v2.s then (v2, m2, e2) else (⟨true, true, 0⟩, 0, 0)
      else (v2, m2, e2)
    else
      if v2.l = false ∧ v2.t = 0 ∧ m2 = 0 ∧ e2 = 0 then (v1, 0, e1)
      else (⟨v2.s, true, v2.t⟩, m2, e2)
  else if e1 = maxI64 then
    if m2 = 0 ∧ v2.l = true then
      if e2 = maxI64 then
        if v1.s = v2.s then (v2, m2, e2) else (⟨false, true, 0⟩, 0, 1)
      else if e2 = minI64 then (v1, 0, e1)
      else (v2, m2, e2)
    else (v1, 0, e1)
  else (v1, 0, e1)

/-- The linear scan of the weight-generation vmeAdd reduction block. -/
def vmeAddScanF : Nat → WFlag → Nat → Nat → Nat → Nat → Int → Nat → WFlag × Nat × Nat × Int
  | 0, v, _, _, m1, m2, e, _ => (v, m2, m1, e)
  | fuel + 1, v, h2, l2, m1, m2, e, k =>
    let p := tenPowAt k
    if h2 < p then
      let q2 := (h2 * U64 + l2) / p
      let r2 := (h2 * U64 + l2) % p
      let q1 := m1 / p
      let r1 := m1 % p
      (⟨v.s, v.l || decide (r2 ≠ 0) || decide (r1 ≠ 0), v.t⟩, q2, q1, e + (k : Int))
    else vmeAddScanF fuel v h2 l2 m1 m2 e (k + 1)

/-- The scan from k to j (at most j + 1 - k iterations). -/
def vmeAddScan (v : WFlag) (h2 l2 m1 m2 : Nat) (e : Int) (k j : Nat) :
    WFlag × Nat × Nat × Int :=
  vmeAddScanF (j + 1 - k) v h2 l2 m1 m2 e k

/-- The sign/mantissa merge at the end of the weight-generation vmeAdd; the
accumulated v keeps the left operand's unit tag. -/
def vmeAddFinish (v1 : WFlag) (m1 : Nat) (v2 : WFlag) (m2 : Nat) (v : WFlag) (e : Int) :
    WFlag × Nat × Int :=
  let sm : Bool × Nat :=
    if v1.s = v2.s then (v1.s, (m1 + m2) % U64)
    else if m1 < m2 then (v2.s, m2 - m1) else (v1.s, m1 - m2)
  let vl := v.l || v1.l || v2.l
  if sm.2 = 0 then (⟨true, vl, v.t⟩, 0, 0) else (⟨sm.1, vl, v.t⟩, sm.2, e)

/-- The body of the weight-generation vmeAdd after the swap; vinit carries
the unit tag of the original left operand. -/
def vmeAddCore (vinit : WFlag) (v1 : WFlag) (m1 : Nat) (e1 : Int) (v2 : WFlag) (m2 : Nat)
    (e2 : Int) : WFlag × Nat × Int :=
  if m1 = 0 then
    let v : WFlag := ⟨v2.s, v2.l, vinit.t⟩
    if v1.l then vmeAddMagic1 v1 e1 v m2 e2 else (v, m2, e2)
  else if m2 = 0 then
    let v : WFlag := ⟨v1.s, v1.l, vinit.t⟩
    if v2.l then vmeAddMagic1 v2 e2 v m1 e1 else (v, m1, e1)
  else
    if e1 < e2 then
      if e2 - e1 < 20 then
        let h2 := m2 * tenPowAt (e2 - e1).toNat / U64
        let l2 := m2 * tenPowAt (e2 - e1).toNat % U64
        if h2 ≠ 0 then
          let p1 : Nat × Nat := if h2 < tenPowAt ((1 + 19) / 2) then (1, (1 + 19) / 2) else ((1 + 19) / 2, 19)
          let p2 : Nat × Nat := if h2 < tenPowAt ((p1.1 + p1.2) / 2) then (p1.1, (p1.1 + p1.2) / 2) else ((p1.1 + p1.2) / 2, p1.2)
          let p3 : Nat × Nat := if h2 < tenPowAt ((p2.1 + p2.2) / 2) then (p2.1, (p2.1 + p2.2) / 2) else ((p2.1 + p2.2) / 2, p2.2)
          let s := vmeAddScan ⟨false, false, vinit.t⟩ h2 l2 m1 m2 e1 p3.1 p3.2
          vmeAddFinish v1 s.2.2.1 v2 s.2.1 s.1 s.2.2.2
        else vmeAddFinish v1 m1 v2 l2 ⟨false, false, vinit.t⟩ e1
      else (⟨v2.s, true, v2.t⟩, m2, e2)
    else vmeAddFinish v1 m1 v2 m2 ⟨false, false, vinit.t⟩ e1

/-- vmeAdd of the weight-generation core: v is seeded with the left
operand's unit tag before the exponent swap. -/
def vmeAdd (v1 : WFlag) (m1 : Nat) (e1 : Int) (v2 : WFlag) (m2 : Nat) (e2 : Int) :
    WFlag × Nat × Int :=
  let vinit : WFlag := ⟨false, false, v1.t⟩
  if e1 > e2 then vmeAddCore vinit v2 m2 e2 v1 m1 e1
  else vmeAddCore vinit v1 m1 e1 v2 m2 e2

/-- vmeMulMagic1 of the weight-generation core: as in the decimal core but
an infinity times the unsigned near zero is NaN here (e2 == 0 ||
e2 != MaxInt64). -/
def vmeMulMagic1 (v1 : WFlag) (e1 : Int) (v2 : WFlag) (m2 : Nat) (e2 : Int) :
    WFlag × Nat × Int :=
  if e1 = 0 then
    if m2 = 0 then
      if v2.l then
        if e2 ≠ 0 ∧ e2 ≠ minI64 then (⟨false, true, 0⟩, 0, 1) else (⟨true, true, 0⟩, 0, 0)
      else (⟨true, false, 0⟩, 0, 0)
    else (⟨true, true, 0⟩, 0, 0)
  else if e1 = minI64 then
    if m2 = 0 then
      if v2.l then
        if e2 ≠ 0 ∧ e2 ≠ minI64 then (⟨false, true, 0⟩, 0, 1)
        else if e2 = 0 then (⟨true, true, 0⟩, 0, 0)
        else (⟨v1.s != v2.s, true, 0⟩, 0, minI64)
      else (⟨true, false, 0⟩, 0, 0)
    else (⟨v1.s != v2.s, true, 0⟩, 0, minI64)
  else if e1 = maxI64 then
    if m2 = 0 then
      if v2.l then
        if e2 = 0 ∨ e2 ≠ maxI64 then (⟨false, true, 0⟩, 0, 1)
        else (⟨v1.s != v2.s, true, 0⟩, 0, maxI64)
      else (⟨false, true, 0⟩, 0, 1)
    else (⟨v1.s != v2.s, true, 0⟩, 0, maxI64)
  else (⟨false, true, 0⟩, 0, 1)

/-- vmhmeReduce of the weight-generation core (same algorithm as the
decimal one, threading the unit tag through). -/
def vmhmeReduceScanF : Nat → WFlag → Nat → Nat → Int → Nat → WFlag × Nat × Nat × Int
  | 0, v, mh, m, e, _ => (v, mh, m, e)
  | fuel + 1, v, mh, m, e, i =>
    let p := tenPowAt i
    if mh < p then
      let q := (mh * U64 + m) / p
      let r := (mh * U64 + m) % p
      let q' := if r ≠ 0 ∧ 2 * r ≥ p then q + 1 else q
      (⟨v.s, v.l || decide (r ≠ 0), v.t⟩, 0, q', e + (i : Int))
    else vmhmeReduceScanF fuel v mh m e (i + 1)

/-- The range loop over the 20 entries of ten_pow. -/
def vmhmeReduceScan (v : WFlag) (mh m : Nat) (e : Int) (i : Nat) :
    WFlag × Nat × Nat × Int :=
  vmhmeReduceScanF (20 - i) v mh m e i

/-- vmhmeReduce of the weight-generation core. -/
def vmhmeReduce (v : WFlag) (mh m : Nat) (e : Int) : WFlag × Nat × Int :=
  let s1 := if mh > 0 then vmhmeReduceScan v mh m e 0 else (v, mh, m, e)
  let v1 := s1.1
  let mh1 := s1.2.1
  let m1 := s1.2.2.1
  let e1 := s1.2.2.2
  if mh1 > 0 then
    let qh := mh1 / 10
    let rh := mh1 % 10
    let qm := (rh * U64 + m1) / 10
    let rm := (rh * U64 + m1) % 10
    let qm' := if rm ≠ 0 ∧ rm ≥ 5 then (qm + 1) % U64 else qm
    let vl := v1.l || decide (rm ≠ 0)
    let p := tenPowAt 19
    let q := (qh * U64 + qm') / p
    let r := (qh * U64 + qm') % p
    (⟨v1.s, vl || decide (r ≠ 0), v1.t⟩, q, e1 + 1 + 19)
  else (v1, m1, e1)

/-- vmeMul of the weight-generation core: the result v keeps the left
operand's unit tag on the ordinary path. -/
def vmeMul (v1 : WFlag) (m1 : Nat) (e1 : Int) (v2 : WFlag) (m2 : Nat) (e2 : Int) :
    WFlag × Nat × Int :=
  if m1 = 0 then
    if v1.l then vmeMulMagic1 v1 e1 v2 m2 e2 else (⟨true, false, 0⟩, 0, 0)
  else if m2 = 0 then
    if v2.l then vmeMulMagic1 v2 e2 v1 m1 e1 else (⟨true, false, 0⟩, 0, 0)
  else
    let v : WFlag := ⟨v1.s != v2.s, v1.l || v2.l, v1.t⟩
    let e := wrap64 (e1 + e2)
    if e < e1 ∧ e2 > 0 then (⟨v.s, true, v.t⟩, 0, maxI64)
    else if e > e1 ∧ e2 < 0 then (⟨v.s, true, v.t⟩, 0, minI64)
    else
      let mh := m1 * m2 / U64
      let m := m1 * m2 % U64
      vmhmeReduce v mh m e

/-- vmeDivRemMagic2 of the weight-generation core. -/
def vmeDivRemMagic2 (v1 : WFlag) (m1 : Nat) (e1 : Int) (v2 : WFlag) (e2 : Int) :
    WFlag × Nat × Int × Nat × Int :=
  if e2 = 0 then (⟨false, true, 0⟩, 0, 1, 0, 0)
  else if e2 = minI64 then
    if m1 = 0 then
      if v1.l then
        if e1 = 0 ∨ e1 = minI64 then (⟨false, true, 0⟩, 0, 1, 0, 0)
        else if e1 = maxI64 then (⟨v1.s != v2.s, true, 0⟩, 0, maxI64, 0, 0)
        else (⟨false, true, 0⟩, 0, 1, 0, 0)
      else (⟨false, true, 0⟩, 0, 1, 0, 0)
    else (⟨v1.s != v2.s, true, 0⟩, 0, maxI64, 0, 0)
  else if e2 = maxI64 then
    if m1 = 0 then
      if v1.l then
        if e1 = 0 then (⟨true, true, 0⟩, 0, 0, 0, 0)
        else if e1 = minI64 then (⟨v1.s && v2.s, true, 0⟩, 0, minI64, 0, 0)
        else (⟨false, true, 0⟩, 0, 1, 0, 0)
      else (⟨true, true, 0⟩, 0, 0, 0, 0)
    else (⟨v1.s != v2.s, true, 0⟩, 0, minI64, 0, 0)
  else (⟨false, true, 0⟩, 0, 1, 0, 0)

/-- The h1-reduction scan of the weight-generation vmeDivRem. -/
def vmeDivRemReduceScanF : Nat → WFlag → Nat → Nat → Int → Nat → WFlag × Nat × Nat × Int
  | 0, v, h1, l1, e, _ => (v, h1, l1, e)
  | fuel + 1, v, h1, l1, e, i =>
    let p := tenPowAt i
    if h1 < p then
      let q := (h1 * U64 + l1) / p
      let r := (h1 * U64 + l1) % p
      (⟨v.s, v.l || decide (r ≠ 0), v.t⟩, 0, q, e + (i : Int))
    else vmeDivRemReduceScanF fuel v h1 l1 e (i + 1)

/-- The range loop over the 20 entries of ten_pow. -/
def vmeDivRemReduceScan (v : WFlag) (h1 l1 : Nat) (e : Int) (i : Nat) :
    WFlag × Nat × Nat × Int :=
  vmeDivRemReduceScanF (20 - i) v h1 l1 e i

/-- vmeDivRem of the weight-generation core (its ordinary path does not
keep any unit tag in v). -/
def vmeDivRem (v1 : WFlag) (m1 : Nat) (e1 : Int) (v2 : WFlag) (m2 : Nat) (e2 : Int)
    (precision : Int) : WFlag × Nat × Int × Nat × Int :=
  if m2 = 0 then
    if v2.l then vmeDivRemMagic2 v1 m1 e1 v2 e2 else (⟨false, true, 0⟩, 0, 1, 0, 0)
  else if m1 = 0 then
    if v1.l then (⟨v1.s != v2.s, true, 0⟩, 0, e1, 0, 0) else (⟨true, false, 0⟩, 0, 0, 0, 0)
  else
    let v : WFlag := ⟨v1.s != v2.s, v1.l || v2.l, 0⟩
    let e0 := e1 - e2
    let rt : Int × Int := if e0 + precision < 0 then (-precision + (e0 + precision), 0) else (-precision, e0 + precision)
    let re1 := rt.1
    let tpi := if rt.2 ≥ 20 then (19 : Int) else rt.2
    let e := e0 - tpi
    let h1 := m1 * tenPowAt tpi.toNat / U64
    let l1 := m1 * tenPowAt tpi.toNat % U64
    let s := if m2 ≤ h1 then vmeDivRemReduceScan v h1 l1 e 0 else (v, h1, l1, e)
    let v3 := s.1
    let h1' := s.2.1
    let l1' := s.2.2.1
    let e3 := s.2.2.2
    let m := (h1' * U64 + l1') / m2
    let r := (h1' * U64 + l1') % m2
    let mr : Nat × Nat :=
      if re1 < -precision then
        let p := tenPowAt (-precision - re1).toNat
        (m / p * p, (r + m % p * m2) % U64)
      else (m, r)
    (v3, mr.1, e3, mr.2, re1 + e2)

end WCore

/-- Weight.vmet: decode a Weight into its VME tuple plus unit tag. -/
def vmet (w : Int) : WFlag × Nat × Int :=
  let u : Nat := if w < 0 then u64 (-w) else u64 w
  let t : Nat := u / wtBit % 16
  let v : WFlag := ⟨decide (w < 0), decide (u / lossBit % 2 = 1), t⟩
  let eraw : Nat := u / expBit % 32
  let e0 : Int := if eraw < 16 then (eraw : Int) else (eraw : Int) - 32
  let m : Nat := u % wtBit
  let e : Int :=
    if m = 0 then
      if e0 = -16 then minI64 else if e0 = 15 then maxI64 else e0
    else e0
  (v, m, e)

/-- The encoding tail of vmeAsWeight (fields are disjoint after
normalization: m ≤ WeightMaxInt occupies bits 0..52, the tag bits 53..56,
the exponent bits 57..61). -/
def encodeWVme (v : WFlag) (m : Nat) (e : Int) : Int :=
  let ef : Nat := (e.emod 32).toNat * expBit
  let word : Nat := (if v.l then lossBit else 0) + v.t % 16 * wtBit + ef + m
  if v.s then -(word : Int) else (word : Int)

/-- vmeAsWeight: a loss-free zero tuple collapses to Null, to the tagged
zero word (just the unit bits) or to Zero when there is no tag. -/
def vmeAsWeight (v : WFlag) (m : Nat) (e : Int) : Int :=
  if m = 0 ∧ v.l = false then
    if v.s = false ∧ v.t = 0 ∧ e = 0 then Null
    else if v.t % 16 = 0 then Zero
    else (v.t % 16 * wtBit : Nat)
  else
    let r := WCore.vmeNormalize v m e WeightMaxInt (-16) 15
    encodeWVme r.1 r.2.1 r.2.2

/-- Decimal.IsInteger: zero or safely castable to int64 (no exponent or
loss bits in the magnitude word). -/
def Decimal.IsInteger (d : Decimal) : Bool :=
  u64 (Decimal.Abs d) / expBit % 64 = 0

/-- Decimal.IntPartErr: the integer component and an ok flag (false = Go
returns ErrOutOfRange). -/
def Decimal.IntPartErr (d : Decimal) : Int × Bool :=
  if Decimal.IsInteger d then
    if d = Zero then (0, true) else (d, true)
  else
    let tp := vme d
    let v := tp.1
    let m := tp.2.1
    let e := tp.2.2
    if v.l ∧ m = 0 then
      if e = 15 then
        if d < 0 then (minI64, false) else (maxI64, false)
      else (0, false)
    else if e = 0 then
      if d < 0 then (-(m : Int), true) else ((m : Int), true)
    else if e > 0 then
      let hi := m * tenPowAt e.toNat / U64
      let lo := m * tenPowAt e.toNat % U64
      if hi = 0 ∧ lo ≤ MaxInt then
        if d < 0 then (-(lo : Int), true) else ((lo : Int), true)
      else if d < 0 then (minI64, false) else (maxI64, false)
    else
      let q := m / tenPowAt (-e).toNat
      if d < 0 then (-(q : Int), true) else ((q : Int), true)

/-- Decimal.Int64 (the integer component, dropping the error). -/
def Decimal.Int64 (d : Decimal) : Int := (Decimal.IntPartErr d).1

/-- Weight.Add: convert the right operand into the left operand's unit (a
plain exponent shift for the SI units, a multiply/divide by the packed
conversion factor otherwise), then delegate to the weight-core add. -/
def Weight.Add (w1 w2 : Int) : Int :=
  let t1 := vmet w1
  let t2 := vmet w2
  let c2 := (weightUnits t2.1.t).2
  let conv1 : WFlag × Nat × Int :=
    if Decimal.IsInteger c2 then (t2.1, t2.2.1, t2.2.2 + Decimal.Int64 c2)
    else
      let cv := vme c2
      WCore.vmeMul t2.1 t2.2.1 t2.2.2 ⟨cv.1.s, cv.1.l, 0⟩ cv.2.1 cv.2.2
  let c1 := (weightUnits t1.1.t).2
  let conv2 : WFlag × Nat × Int :=
    if Decimal.IsInteger c1 then (conv1.1, conv1.2.1, conv1.2.2 - Decimal.Int64 c1)
    else
      let cv := vme c1
      let r := WCore.vmeDivRem conv1.1 conv1.2.1 conv1.2.2 ⟨cv.1.s, cv.1.l, 0⟩ cv.2.1 cv.2.2 16
      let rem := r.2.2.2.1
      if rem ≠ 0 then
        (⟨r.1.s, true, r.1.t⟩, if 2 * rem % U64 ≥ cv.2.1 then r.2.1 + 1 else r.2.1, r.2.2.1)
      else (r.1, r.2.1, r.2.2.1)
  let a := WCore.vmeAdd t1.1 t1.2.1 t1.2.2 conv2.1 conv2.2.1 conv2.2.2
  vmeAsWeight a.1 a.2.1 a.2.2

/-- Weight.Sub = w1.Add(-w2). -/
def Weight.Sub (w1 w2 : Int) : Int := Weight.Add w1 (int64Neg w2)

/-- Weight.Unit: the name of the decoded unit tag. -/
def Weight.Unit (w : Int) : String :=
  let u : Nat := if w < 0 then u64 (-w) else u64 w
  (weightUnits (u / wtBit % 16)).1

/-- Weight.IsExactlyZero: every bit but the sign and the unit tag is clear. -/
def Weight.IsExactlyZero (w : Int) : Bool :=
  u64 w % wtBit = 0 ∧ u64 w / expBit % 64 = 0

/-- Weight.IsZero: exactly zero, or the word equals loss once the sign and
unit bits are masked away. -/
def Weight.IsZero (w : Int) : Bool :=
  Weight.IsExactlyZero w || (u64 w % wtBit = 0 ∧ u64 w / expBit % 64 = 32)

/-- Weight.IsNaN. -/
def Weight.IsNaN (w : Int) : Bool :=
  let tp := vmet w
  tp.2.1 = 0 ∧ tp.1.l ∧ tp.2.2 ≠ 0 ∧ tp.2.2 ≠ minI64 ∧ tp.2.2 ≠ maxI64

/-- Weight.IsPositive. -/
def Weight.IsPositive (w : Int) : Bool := decide (0 < w) && !(Weight.IsNaN w)

/-- Weight.Compare: sign-classify w1 - w2. -/
def Weight.Compare (w1 w2 : Int) : Int :=
  let w := Weight.Sub w1 w2
  if Weight.IsZero w then 0 else if Weight.IsPositive w then 1 else -1

/-- The eight reserved magic states. -/
def magicStates : List Decimal :=
  [Null, Zero, NearZero, NearPositiveZero, NearNegativeZero,
   PositiveInfinity, NegativeInfinity, NaN]

theorem vmeAddMagic1_absorb (zv : VFlag) (ze : Int) (hz : ze = 0 ∨ ze = minI64)
    (v : VFlag) (m : Nat) (e : Int) (hm : m ≠ 0) :
    vmeAddMagic1 zv ze v m e = (⟨v.s, true⟩, m, e) := by
  unfold vmeAddMagic1
  rw [if_pos hz, if_neg (by simp [hm]), if_neg (by simp [hm])]

theorem vmeAdd_nearzero_right (v : VFlag) (m : Nat) (e : Int) (hm : m ≠ 0) (he : -16 ≤ e)
    (zv : VFlag) (ze : Int) (hzl : zv.l = true) (hz : ze = 0 ∨ ze = minI64) :
    vmeAdd v m e zv 0 ze = (⟨v.s, true⟩, m, e) := by
  unfold vmeAdd vmeAddCore
  by_cases h : e > ze
  · rw [if_pos h, if_pos rfl, if_pos hzl, vmeAddMagic1_absorb zv ze hz v m e hm]
  · rw [if_neg h, if_neg hm, if_pos rfl, if_pos hzl, vmeAddMagic1_absorb zv ze hz v m e hm]

theorem vmeAdd_nearzero_left (v : VFlag) (m : Nat) (e : Int) (hm : m ≠ 0) (he : -16 ≤ e)
    (zv : VFlag) (ze : Int) (hzl : zv.l = true) (hz : ze = 0 ∨ ze = minI64) :
    vmeAdd zv 0 ze v m e = (⟨v.s, true⟩, m, e) := by
  unfold vmeAdd vmeAddCore
  by_cases h : ze > e
  · rw [if_pos h, if_neg hm, if_pos rfl, if_pos hzl, vmeAddMagic1_absorb zv ze hz v m e hm]
  · rw [if_neg h, if_pos rfl, if_pos hzl, vmeAddMagic1_absorb zv ze hz v m e hm]

/-- C1 (counterexample).  The claim says multiplying zero by an infinity
gives NaN; the code short-circuits a zero left operand of Mul before it
looks at the right operand, so Zero.Mul(+Inf) is Zero, not NaN. -/
theorem c1_magic_table_counterexample :
    Decimal.Mul Zero PositiveInfinity = Zero ∧
    Decimal.IsNaN (Decimal.Mul Zero PositiveInfinity) = false := by decide

/-- C1 (amended).  The Add truth table is as documented: NaN absorbs on
either side, same-signed infinities absorb, opposite-signed infinities give
NaN, oppositely-signed near zeros give the unsigned NearZero, and a
near-zero state added to any nonzero-mantissa tuple returns that tuple with
the loss flag set (the result is then re-normalized).  The Mul table differs
from the claim: a near-zero left operand times an infinity is NaN, and an
infinity times Zero, Null or a signed near zero is NaN, but Zero or Null as
the left operand of Mul always yields Zero (even times an infinity), and an
infinity times the unsigned NearZero yields the infinity of the opposite
sign. -/
theorem c1_magic_table_amended :
    ((magicStates.all fun x => Decimal.Add x NaN == NaN && Decimal.Add NaN x == NaN)
      ∧ Decimal.Add PositiveInfinity PositiveInfinity = PositiveInfinity
      ∧ Decimal.Add NegativeInfinity NegativeInfinity = NegativeInfinity
      ∧ Decimal.Add PositiveInfinity NegativeInfinity = NaN
      ∧ Decimal.Add NegativeInfinity PositiveInfinity = NaN
      ∧ Decimal.Add NearPositiveZero NearNegativeZero = NearZero
      ∧ Decimal.Add NearNegativeZero NearPositiveZero = NearZero
      ∧ (magicStates.all fun y => Decimal.Mul Zero y == Zero && Decimal.Mul Null y == Zero)
      ∧ Decimal.Mul NearZero PositiveInfinity = NaN
      ∧ Decimal.Mul NearZero NegativeInfinity = NaN
      ∧ Decimal.Mul NearPositiveZero PositiveInfinity = NaN
      ∧ Decimal.Mul NearPositiveZero NegativeInfinity = NaN
      ∧ Decimal.Mul NearNegativeZero PositiveInfinity = NaN
      ∧ Decimal.Mul NearNegativeZero NegativeInfinity = NaN
      ∧ Decimal.Mul PositiveInfinity Zero = NaN
      ∧ Decimal.Mul PositiveInfinity Null = NaN
      ∧ Decimal.Mul PositiveInfinity NearPositiveZero = NaN
      ∧ Decimal.Mul PositiveInfinity NearNegativeZero = NaN
      ∧ Decimal.Mul NegativeInfinity Zero = NaN
      ∧ Decimal.Mul NegativeInfinity Null = NaN
      ∧ Decimal.Mul NegativeInfinity NearPositiveZero = NaN
      ∧ Decimal.Mul NegativeInfinity NearNegativeZero = NaN
      ∧ Decimal.Mul PositiveInfinity NearZero = NegativeInfinity
      ∧ Decimal.Mul NegativeInfinity NearZero = PositiveInfinity
      ∧ Decimal.Mul PositiveInfinity PositiveInfinity = PositiveInfinity
      ∧ Decimal.Mul PositiveInfinity NegativeInfinity = NegativeInfinity
      ∧ Decimal.Mul NegativeInfinity PositiveInfinity = NegativeInfinity
      ∧ Decimal.Mul NegativeInfinity NegativeInfinity = PositiveInfinity)
    ∧ (∀ v : VFlag, ∀ m : Nat, ∀ e : Int, m ≠ 0 → -16 ≤ e →
        ∀ zv : VFlag, ∀ ze : Int, zv.l = true → (ze = 0 ∨ ze = minI64) →
          vmeAdd v m e zv 0 ze = (⟨v.s, true⟩, m, e) ∧
          vmeAdd zv 0 ze v m e = (⟨v.s, true⟩, m, e)) := by
  constructor
  · decide
  · intro v m e hm he zv ze hzl hz
    exact ⟨vmeAdd_nearzero_right v m e hm he zv ze hzl hz,
           vmeAdd_nearzero_left v m e hm he zv ze hzl hz⟩

/-- C1 (witness): 123.456 plus the unsigned NearZero absorbs at the tuple
level, keeping the mantissa and exponent and setting loss. -/
theorem c1_magic_table_amended_witness :
    vmeAdd ⟨false, false⟩ 123456 (-3) ⟨true, true⟩ 0 0 = (⟨false, true⟩, 123456, -3) ∧
    vmeAdd ⟨true, true⟩ 0 0 ⟨false, false⟩ 123456 (-3) = (⟨false, true⟩, 123456, -3) :=
  c1_magic_table_amended.2 ⟨false, false⟩ 123456 (-3) (by decide) (by decide)
    ⟨true, true⟩ 0 rfl (Or.inl rfl)

/-- C2 (code bug).  d1 = 0x2000000000000001 is the canonical Decimal 1e-16
and d2 = 0x1E2386F26FC10000 the canonical Decimal 1e31 (both are fixed
points of vmeAsDecimal, shown by the second and third conjuncts).
d1.QuoRem(d2, 0) - which is also d1.Mod(d2) - computes the remainder
re-scaling index -(e1 - e2 + precision) = 31 and reads ten_pow[31]: the
panic-instrumented division returns none, i.e. the Go code panics with an
index-out-of-range, contradicting the never-panics claim. -/
theorem c2_quorem_panics :
    QuoRemP 2305843009213693953 2171727821137838080 0 = none ∧
    vmeAsDecimal ⟨false, false⟩ 1 (-16) = 2305843009213693953 ∧
    vmeAsDecimal ⟨false, false⟩ 10000000000000000 15 = 2171727821137838080 := by
  decide

/-- C4 (code bug).  QuoRem(4, -3, 0) returns q = -1 and r = -1, so
d2 * q + r = 3 - 1 = 2, not d1 = 4, and the remainder is negative while
d1 is positive - the identity and sign conditions of QuoRem's own
documentation both fail for a negative divisor. -/
theorem c4_quorem_identity_violated :
    Decimal.QuoRem 4 (-3) 0 = (-1, -1) ∧
    Decimal.Add (Decimal.Mul (-3) (-1)) (-1) = 2 ∧
    ((2 : Decimal) = 4 → False) ∧
    ((-1 : Decimal) < 0 ∧ (0 : Decimal) < 4) := by decide

/-- C5 (counterexample).  -2.5 (the canonical New(-25, -1)) rounded to 0
places gives -2: the negative tie is NOT rounded away from zero as the
claim states. -/
theorem c5_round_tie_counterexample :
    New (-25) (-1) = -4467570830351532057 ∧
    Decimal.Round (-4467570830351532057) 0 = -2 ∧
    ((-2 : Decimal) = -3 → False) := by decide

/-- C5 (amended).  At the exact half boundary, Round takes positive ties
away from zero but negative ties toward zero (2.5 -> 3, -2.5 -> -2);
RoundCeil goes toward +infinity, RoundFloor toward -infinity and RoundBank
to the even neighbour, as claimed. -/
theorem c5_round_ties_amended :
    Decimal.Round (New 25 (-1)) 0 = 3 ∧
    Decimal.Round (New (-25) (-1)) 0 = -2 ∧
    Decimal.RoundCeil (New 25 (-1)) 0 = 3 ∧
    Decimal.RoundCeil (New (-25) (-1)) 0 = -2 ∧
    Decimal.RoundFloor (New 25 (-1)) 0 = 2 ∧
    Decimal.RoundFloor (New (-25) (-1)) 0 = -3 ∧
    Decimal.RoundBank (New 25 (-1)) 0 = 2 ∧
    Decimal.RoundBank (New (-25) (-1)) 0 = -2 := by decide

/-- C7 (confirmed).  Parsing "~0" succeeds and yields exactly the NearZero
state: IsZero is true, the bit pattern differs from the canonical Zero, and
IsExactlyZero is false. -/
theorem c7_parse_near_zero :
    NewFromString "~0" = some NearZero ∧
    Decimal.IsZero NearZero = true ∧
    ((NearZero = Zero) → False) ∧
    Decimal.IsExactlyZero NearZero = false := by decide

/-- C8 (code bug).  w1 = 0x20A0000000000001 is the canonical Weight 1e-16 g
and w2 = 0x1E00082F79CD9000 the canonical Weight 9e27 kg (their decoded
tuples are the second and third conjuncts).  w1.Add(w2) converts w2 into
grams (9e30 g, exponent 18) but the large-gap early return keeps w2's v
word - and with it w2's unit tag - so the result is the Weight 9e30 kg:
the unit tag of the left operand is lost and the two addition orders
differ by a factor of 1000 (Compare returns 1, not 0). -/
theorem c8_weight_add_unit_bug :
    Weight.Unit 2350879005487398913 = "g" ∧
    vmet 2350879005487398913 = (⟨false, false, 5⟩, 1, -16) ∧
    vmet 2161736821137838080 = (⟨false, false, 0⟩, 9000000000000, 15) ∧
    Weight.Add 2350879005487398913 2161736821137838080 = 6782413839565225984 ∧
    Weight.Unit 6782413839565225984 = "kg" ∧
    vmet 6782413839565225984 = (⟨false, true, 0⟩, 9000000000000000, 15) ∧
    Weight.Add 2161736821137838080 2350879005487398913 = 6773422839565225984 ∧
    vmet 6773422839565225984 = (⟨false, true, 0⟩, 9000000000000, 15) ∧
    Weight.Compare 6782413839565225984 6773422839565225984 = 1 := by decide

/-- C9 (code bug).  Null.Add(Null) (and hence Null.Sub(Null)) returns the
all-zero bit pattern Null, contradicting the documented invariant that no
operation ever returns Null. -/
theorem c9_add_null_returns_null :
    Decimal.Add Null Null = Null ∧ Decimal.Sub Null Null = Null := by decide

theorem tenPowAt_lt20 : ∀ k : Nat, k < 20 → tenPowAt k = 10 ^ k := by decide

theorem vmeNormalize_exact_int (n : Nat) (hn : 0 < n) (hmax : n ≤ MaxInt)
    (s : Bool) (m : Nat) (e : Int) (hm : m < U64)
    (hcase : (e = 0 ∧ m = n) ∨ (0 < e ∧ e < 20 ∧ m * 10 ^ e.toNat = n) ∨
      (e < 0 ∧ -20 < e ∧ m = n * 10 ^ (-e).toNat)) :
    vmeNormalize ⟨s, false⟩ m e MaxInt (-16) 15 = (⟨s, false⟩, n, 0) := by
  have hm0 : m ≠ 0 := by
    rcases hcase with ⟨he, hmn⟩ | ⟨he1, he2, hmn⟩ | ⟨he1, he2, hmn⟩
    · omega
    · intro h; rw [h] at hmn; simp at hmn; omega
    · have hp : 0 < 10 ^ (-e).toNat := Nat.pos_pow_of_pos _ (by norm_num)
      intro h; rw [hmn] at h
      rcases Nat.eq_zero_of_mul_eq_zero h with h1 | h1 <;> omega
  unfold vmeNormalize
  rw [if_neg hm0]
  rcases hcase with ⟨he, hmn⟩ | ⟨he1, he2, hmn⟩ | ⟨he1, he2, hmn⟩
  · subst he; subst hmn
    simp [hmax]
  · have hne : ¬(e = 0) := by omega
    have htp : tenPowAt e.toNat = 10 ^ e.toNat := tenPowAt_lt20 _ (by omega)
    have hU : n < U64 := by unfold MaxInt at hmax; unfold U64; omega
    simp only [htp, hmn]
    simp [hne, he1, he2, Nat.div_eq_of_lt hU, Nat.mod_eq_of_lt hU, hmax]
  · have hne : ¬(e = 0) := by omega
    have hng : ¬(e > 0) := by omega
    have htp : tenPowAt (-e).toNat = 10 ^ (-e).toNat := tenPowAt_lt20 _ (by omega)
    have hkpos : 0 < 10 ^ (-e).toNat := Nat.pos_pow_of_pos _ (by norm_num)
    have hdvd : (2 : Nat) ∣ 10 ^ (-e).toNat := dvd_pow (by norm_num) (by omega)
    have h2 : 10 ^ (-e).toNat % 2 = 0 := Nat.mod_eq_zero_of_dvd hdvd
    have hmod : n * 10 ^ (-e).toNat % 2 = 0 := by rw [Nat.mul_mod, h2]; simp
    have hq : n * 10 ^ (-e).toNat / 10 ^ (-e).toNat = n := Nat.mul_div_cancel n hkpos
    have hr : n * 10 ^ (-e).toNat % 10 ^ (-e).toNat = 0 := Nat.mul_mod_left _ _
    simp [hne, hng, htp, hmn, hmod, hq, hr, hmax, he2]

theorem vmeAsDecimal_exact_int (n : Nat) (hn : 0 < n) (hmax : n ≤ MaxInt)
    (s : Bool) (m : Nat) (e : Int) (hm : m < U64)
    (hcase : (e = 0 ∧ m = n) ∨ (0 < e ∧ e < 20 ∧ m * 10 ^ e.toNat = n) ∨
      (e < 0 ∧ -20 < e ∧ m = n * 10 ^ (-e).toNat)) :
    vmeAsDecimal ⟨s, false⟩ m e = if s then -(n : Int) else (n : Int) := by
  have hm0 : m ≠ 0 := by
    rcases hcase with ⟨he, hmn⟩ | ⟨he1, he2, hmn⟩ | ⟨he1, he2, hmn⟩
    · omega
    · intro h; rw [h] at hmn; simp at hmn; omega
    · have hp : 0 < 10 ^ (-e).toNat := Nat.pos_pow_of_pos _ (by norm_num)
      intro h; rw [hmn] at h
      rcases Nat.eq_zero_of_mul_eq_zero h with h1 | h1 <;> omega
  unfold vmeAsDecimal
  rw [if_neg (by simp [hm0])]
  simp only [vmeNormalize_exact_int n hn hmax s m e hm hcase]
  unfold encodeVme
  have h0 : (Int.emod 0 32).toNat * expBit = 0 := by decide
  cases s <;> simp [h0]

/-- C3 (counterexample).  At i = 0 the three constructions disagree:
New(0, 0) and NewFromInt(0) give the canonical Zero word, while casting 0
gives the all-zero Null word, a different bit pattern. -/
theorem c3_integer_zero_counterexample :
    New 0 0 = Zero ∧ NewFromInt 0 = Zero ∧ ((Zero = (0 : Decimal)) → False) ∧
    Null = (0 : Decimal) := by decide

/-- C3 (amended).  For every NONZERO integer n with |n| ≤ MaxInt the three
constructions agree with the plain int64 bit pattern, and every loss-free
tuple whose exact value is ±n (covering every exact-integer result of the
arithmetic engine, which always re-encodes through vmeAsDecimal) encodes to
that same pattern. -/
theorem c3_canonical_integer_amended :
    ∀ n : Nat, 0 < n → n ≤ MaxInt →
      (New (n : Int) 0 = (n : Int) ∧ New (-(n : Int)) 0 = -(n : Int) ∧
       NewFromInt (n : Int) = (n : Int) ∧ NewFromInt (-(n : Int)) = -(n : Int)) ∧
      (∀ s : Bool, ∀ m : Nat, ∀ e : Int, m < U64 →
        ((e = 0 ∧ m = n) ∨ (0 < e ∧ e < 20 ∧ m * 10 ^ e.toNat = n) ∨
         (e < 0 ∧ -20 < e ∧ m = n * 10 ^ (-e).toNat)) →
        vmeAsDecimal ⟨s, false⟩ m e = if s then -(n : Int) else (n : Int)) := by
  intro n hn hmax
  have hlit : n ≤ 144115188075855871 := hmax
  have hU : n < U64 := by unfold U64; omega
  have hn0 : (n : Int) ≠ 0 := by exact_mod_cast hn.ne'
  refine ⟨⟨?_, ?_, ?_, ?_⟩, ?_⟩
  · unfold New
    rw [if_neg hn0, if_neg (by omega)]
    rw [Int.toNat_natCast]
    have := vmeAsDecimal_exact_int n hn hmax false n 0 hU (Or.inl ⟨rfl, rfl⟩)
    simpa using this
  · unfold New
    rw [if_neg (by omega), if_pos (by omega)]
    rw [neg_neg, Int.toNat_natCast]
    have := vmeAsDecimal_exact_int n hn hmax true n 0 hU (Or.inl ⟨rfl, rfl⟩)
    simpa using this
  · unfold NewFromInt
    rw [if_neg (by omega), if_pos (by exact_mod_cast hlit), if_neg hn0]
  · unfold NewFromInt
    rw [if_pos (by omega), if_pos (by
      have : (n : Int) ≤ 144115188075855871 := by exact_mod_cast hlit
      omega)]
  · intro s m e hmU hcase
    exact vmeAsDecimal_exact_int n hn hmax s m e hmU hcase

/-- C3 (witness): 100 through each construction, and the tuples
(1000, e = -1) and (-5, e = 1) encode to the integers 100 and -50. -/
theorem c3_canonical_integer_amended_witness :
    New (100 : Int) 0 = (100 : Int) ∧
    vmeAsDecimal ⟨false, false⟩ 1000 (-1) = (100 : Int) ∧
    vmeAsDecimal ⟨true, false⟩ 5 1 = -(50 : Int) :=
  ⟨(c3_canonical_integer_amended 100 (by decide) (by decide)).1.1,
   (c3_canonical_integer_amended 100 (by decide) (by decide)).2 false 1000 (-1) (by decide)
     (Or.inr (Or.inr ⟨by decide, by decide, by decide⟩)),
   (c3_canonical_integer_amended 50 (by decide) (by decide)).2 true 5 1 (by decide)
     (Or.inr (Or.inl ⟨by decide, by decide, by decide⟩))⟩

theorem vme_neg (d : Int) (h1 : -9223372036854775808 < d) (h2 : d < 9223372036854775808)
    (h0 : d ≠ 0) :
    vme (-d) = (⟨!(vme d).1.s, (vme d).1.l⟩, (vme d).2.1, (vme d).2.2) := by
  unfold vme
  rcases lt_trichotomy d 0 with hlt | heq | hgt
  · have hnd : ¬(-d < 0) := by omega
    simp [hlt, hnd, neg_neg]
  · exact absurd heq h0
  · have hnd : -d < 0 := by omega
    have hngt : ¬(d < 0) := by omega
    simp [hgt, hngt, hnd, neg_neg]

theorem vmeAdd_self_neg (s l : Bool) (m : Nat) (e : Int) (hm : m ≠ 0) :
    vmeAdd ⟨s, l⟩ m e ⟨!s, l⟩ m e = (⟨true, l⟩, 0, 0) := by
  unfold vmeAdd vmeAddCore vmeAddFinish
  rw [if_neg (lt_irrefl e), if_neg hm, if_neg hm, if_neg (lt_irrefl e)]
  have hs : ¬((⟨s, l⟩ : VFlag).s = (⟨!s, l⟩ : VFlag).s) := by cases s <;> simp
  rw [if_neg hs, if_neg (lt_irrefl m)]
  simp

/-- C10 (confirmed).  Equal is reflexive exactly on the non-error states:
every Decimal with a nonzero decoded mantissa (an ordinary finite number,
with or without loss), plus Null, Zero and the three near-zero states,
satisfies d.Equal(d); NaN and the two infinities do not, because
Equal(d1, d2) is IsZero(d1.Sub(d2)) and Inf - Inf and NaN - NaN are NaN. -/
theorem c10_equal_reflexive :
    (∀ d : Decimal, -9223372036854775808 ≤ d → d < 9223372036854775808 →
        (vme d).2.1 ≠ 0 → Decimal.Equal d d = true) ∧
    Decimal.Equal Null Null = true ∧
    Decimal.Equal Zero Zero = true ∧
    Decimal.Equal NearZero NearZero = true ∧
    Decimal.Equal NearPositiveZero NearPositiveZero = true ∧
    Decimal.Equal NearNegativeZero NearNegativeZero = true ∧
    Decimal.Equal NaN NaN = false ∧
    Decimal.Equal PositiveInfinity PositiveInfinity = false ∧
    Decimal.Equal NegativeInfinity NegativeInfinity = false := by
  refine ⟨?_, by decide, by decide, by decide, by decide, by decide, by decide, by decide,
    by decide⟩
  intro d h1 h2 hm
  have hd0 : d ≠ 0 := by
    intro h; rw [h] at hm; exact hm (by decide)
  have hdz : d ≠ -9223372036854775808 := by
    intro h; rw [h] at hm; exact hm (by decide)
  unfold Decimal.Equal Decimal.Sub
  have hneg : int64Neg d = -d := by
    unfold int64Neg
    rw [if_neg (by unfold minI64; exact hdz)]
  rw [hneg]
  unfold Decimal.Add
  rw [vme_neg d (lt_of_le_of_ne h1 (Ne.symm hdz)) h2 hd0]
  rcases hv : vme d with ⟨⟨vs, vl⟩, m, e⟩
  rw [hv] at hm
  simp only at hm ⊢
  rw [vmeAdd_self_neg vs vl m e hm]
  cases vl <;> decide

/-- C10 (witness): reflexivity of Equal at the ordinary values 5 and the
lossy 123.456 + NearZero pattern. -/
theorem c10_equal_reflexive_witness :
    Decimal.Equal 5 5 = true ∧ Decimal.Equal 4899916394579099649 4899916394579099649 = true :=
  ⟨c10_equal_reflexive.1 5 (by decide) (by decide) (by decide),
   c10_equal_reflexive.1 4899916394579099649 (by decide) (by decide) (by decide)⟩

theorem putUvarintF_length : ∀ (k : Nat), 1 ≤ k → ∀ (fuel x : Nat), k ≤ fuel →
    x < 128 ^ k → (putUvarintF fuel x).length ≤ k := by
  intro k
  induction k with
  | zero => omega
  | succ k ih =>
    intro _ fuel x hkf hx
    match fuel, hkf with
    | f + 1, _ =>
      unfold putUvarintF
      by_cases hx128 : x < 128
      · simp [hx128]
      · rw [if_neg hx128]
        have hk1 : 1 ≤ k := by
          by_contra hk
          have : k = 0 := by omega
          subst this
          simp at hx
          omega
        have hd : x / 128 < 128 ^ k := Nat.div_lt_of_lt_mul (by rw [← pow_succ']; exact hx)
        have := ih hk1 f (x / 128) (by omega) hd
        simp only [List.length_cons]
        omega

theorem uvarintAux_putUvarintF : ∀ (fuel x i acc : Nat),
    x < 128 ^ fuel →
    (putUvarintF fuel x).length + i ≤ 9 →
    acc < 2 ^ (7 * i) →
    x * 2 ^ (7 * i) < U64 →
    uvarintAux (putUvarintF fuel x) acc (7 * i) i = some (acc + x * 2 ^ (7 * i)) := by
  intro fuel
  induction fuel with
  | zero =>
    intro x i acc hx hlen hacc hxu
    have hx0 : x = 0 := by simpa using hx
    subst hx0
    unfold putUvarintF at hlen ⊢
    simp only [List.length_cons, List.length_nil] at hlen
    unfold uvarintAux
    rw [if_neg (by omega), if_pos (by omega : 0 % 256 < 128), if_neg (by omega)]
    simp
  | succ fuel ih =>
    intro x i acc hx hlen hacc hxu
    unfold putUvarintF at hlen ⊢
    by_cases hx128 : x < 128
    · rw [if_pos hx128]
      rw [if_pos hx128] at hlen
      simp only [List.length_cons, List.length_nil] at hlen
      unfold uvarintAux
      rw [if_neg (by omega), if_pos (by omega : x % 256 < 128), if_neg (by omega)]
      have hmod : x * 2 ^ (7 * i) % U64 = x * 2 ^ (7 * i) := Nat.mod_eq_of_lt hxu
      have hadd : acc ||| x % 256 * 2 ^ (7 * i) % U64 = acc + x * 2 ^ (7 * i) := by
        rw [show x % 256 = x by omega, hmod, Nat.lor_comm, Nat.mul_comm]
        rw [← Nat.mul_add_lt_is_or hacc x]
        ring
      rw [hadd]
    · rw [if_neg hx128]
      rw [if_neg hx128] at hlen
      simp only [List.length_cons] at hlen
      unfold uvarintAux
      have hb : (x % 128 + 128) % 256 = x % 128 + 128 := by omega
      rw [if_neg (by omega), hb, if_neg (by omega), show (x % 128 + 128) % 128 = x % 128 by omega]
      have hxmlt : x % 128 * 2 ^ (7 * i) < U64 := by
        have : x % 128 * 2 ^ (7 * i) ≤ x * 2 ^ (7 * i) :=
          Nat.mul_le_mul_right _ (Nat.mod_le x 128)
        omega
      have hacc' : acc ||| x % 128 * 2 ^ (7 * i) % U64 = 2 ^ (7 * i) * (x % 128) + acc := by
        rw [Nat.mod_eq_of_lt hxmlt, Nat.lor_comm, Nat.mul_comm]
        exact (Nat.mul_add_lt_is_or hacc (x % 128)).symm
      rw [hacc']
      have hpow : 2 ^ (7 * (i + 1)) = 2 ^ (7 * i) * 128 := by
        rw [show 7 * (i + 1) = 7 * i + 7 by ring, pow_add]
        norm_num
      have hacc2 : 2 ^ (7 * i) * (x % 128) + acc < 2 ^ (7 * (i + 1)) := by
        have h1 : x % 128 ≤ 127 := by omega
        have h2 : 2 ^ (7 * i) * (x % 128) ≤ 2 ^ (7 * i) * 127 :=
          Nat.mul_le_mul_left _ h1
        omega
      have hdiv : x / 128 < 128 ^ fuel := Nat.div_lt_of_lt_mul (by rw [← pow_succ']; exact hx)
      have hxu2 : x / 128 * 2 ^ (7 * (i + 1)) < U64 := by
        have heq : x / 128 * 2 ^ (7 * (i + 1)) = x / 128 * 128 * 2 ^ (7 * i) := by
          rw [hpow]; ring
        rw [heq]
        have h4 : x / 128 * 128 ≤ x := Nat.div_mul_le_self x 128
        have := Nat.mul_le_mul_right (2 ^ (7 * i)) h4
        omega
      have hrec := ih (x / 128) (i + 1) (2 ^ (7 * i) * (x % 128) + acc) hdiv (by omega) hacc2 hxu2
      rw [show 7 * (i + 1) = 7 * i + 7 by ring] at hrec
      rw [hrec]
      congr 1
      have hsplit : 128 * (x / 128) + x % 128 = x := Nat.div_add_mod x 128
      have h3 : 2 ^ (7 * i + 7) = 2 ^ (7 * i) * 128 := by
        rw [pow_add]; norm_num
      calc 2 ^ (7 * i) * (x % 128) + acc + x / 128 * 2 ^ (7 * i + 7)
          = acc + (128 * (x / 128) + x % 128) * 2 ^ (7 * i) := by rw [h3]; ring
        _ = acc + x * 2 ^ (7 * i) := by rw [hsplit]

theorem uvarint_putUvarint (x : Nat) (h : x < 144115188075855872) :
    uvarint (putUvarint x) = some x := by
  unfold uvarint putUvarint
  have h0 := uvarintAux_putUvarintF 10 x 0 0 (by norm_num; omega) ?_ (by norm_num) ?_
  · simpa using h0
  · have hl : (putUvarintF 10 x).length ≤ 9 :=
      putUvarintF_length 9 (by norm_num) 10 x (by norm_num) (by norm_num; omega)
    omega
  · simpa [U64] using by omega

theorem putUvarint_length_le9 (x : Nat) (h : x < 144115188075855872) :
    (putUvarint x).length ≤ 9 :=
  putUvarintF_length 9 (by norm_num) 10 x (by norm_num) (by norm_num; omega)

/-- C6: the binary codec roundtrips. For every int64 value d, MarshalBinary
produces between 1 and 10 bytes and UnmarshalBinary applied to exactly those
bytes succeeds and restores d bit for bit; in particular Zero encodes as the
single byte 0x80 and the integer 100 as the two bytes 0x01 0x64. -/
theorem c6_binary_roundtrip :
    (MarshalBinary Zero = [128] ∧ MarshalBinary 100 = [1, 100]) ∧
    ∀ d : Decimal, minI64 ≤ d → d < 9223372036854775808 →
      1 ≤ (MarshalBinary d).length ∧ (MarshalBinary d).length ≤ 10 ∧
      UnmarshalBinary (MarshalBinary d) = some d := by
  refine ⟨by decide, ?_⟩
  show ∀ d : Int, minI64 ≤ d → d < 9223372036854775808 →
      1 ≤ (MarshalBinary d).length ∧ (MarshalBinary d).length ≤ 10 ∧
      UnmarshalBinary (MarshalBinary d) = some d
  intro d h1 h2
  have h1' : -(9223372036854775808 : Int) ≤ d := h1
  by_cases hdneg : d < 0
  · -- negative values
    obtain ⟨n, rfl⟩ : ∃ n : Nat, d = -(n : Int) := ⟨(-d).toNat, by omega⟩
    have hn1 : 0 < n := by omega
    by_cases hbig : n = 9223372036854775808
    · subst hbig
      exact ⟨by decide, by decide, by decide⟩
    · have hn3 : n < 9223372036854775808 := by omega
      have hu : u64 (-(-(n : Int))) = n := by unfold u64; omega
      have hx : (n + 9223372036854775808) / 72057594037927936 % 256
          = n / 72057594037927936 + 128 := by omega
      have hA : 9223372036854775808 ≤ n + 9223372036854775808 := by omega
      have hB : n + 9223372036854775808 ≠ 9223372036854775808 := by omega
      by_cases hum : n % 144115188075855872 = 0
      · have hM : MarshalBinary (-(n : Int)) = [n / 72057594037927936 + 128] := by
          simp only [MarshalBinary, expBit, signBit, if_pos hdneg, hu, if_pos hn3, hx,
            if_pos hum]
        refine ⟨by simp [hM], by simp [hM], ?_⟩
        rw [hM]
        have hb : (n / 72057594037927936 + 128) % 256 = n / 72057594037927936 + 128 := by
          omega
        have hpar : ¬((n / 72057594037927936 + 128) % 2 = 1) := by omega
        have hu0 : (n / 72057594037927936 + 128) * 72057594037927936
            = n + 9223372036854775808 := by omega
        simp [UnmarshalBinary, signBit, hb, if_neg hpar, hu0, hA, hB]
      · have hlen : (putUvarint (n % 144115188075855872)).length ≤ 9 :=
          putUvarint_length_le9 _ (by omega)
        have hvar : uvarint (putUvarint (n % 144115188075855872))
            = some (n % 144115188075855872) := uvarint_putUvarint _ (by omega)
        by_cases hpar : (n / 72057594037927936 + 128) % 2 = 1
        · have hM : MarshalBinary (-(n : Int))
              = (n / 72057594037927936 + 128) :: putUvarint (n % 144115188075855872) := by
            simp only [MarshalBinary, expBit, signBit, if_pos hdneg, hu, if_pos hn3, hx,
              if_neg hum, if_pos hpar]
          refine ⟨by simp [hM], ?_, ?_⟩
          · rw [hM]
            simp only [List.length_cons]
            omega
          · rw [hM]
            have hb : (n / 72057594037927936 + 128) % 256
                = n / 72057594037927936 + 128 := by omega
            have hrw : (n / 72057594037927936 + 128) * 72057594037927936
                - 72057594037927936
                = 144115188075855872 * (n / 144115188075855872 + 64) := by omega
            have hor : 144115188075855872 * (n / 144115188075855872 + 64)
                ||| n % 144115188075855872 = n + 9223372036854775808 := by
              have h2 : (144115188075855872 : Nat) = 2 ^ 57 := by norm_num
              rw [h2, ← Nat.mul_add_lt_is_or (show n % 2 ^ 57 < 2 ^ 57 by omega)
                (n / 2 ^ 57 + 64)]
              omega
            simp [UnmarshalBinary, signBit, hb, hpar, hvar, hrw, hor, hA, hB]
        · have hM : MarshalBinary (-(n : Int))
              = (n / 72057594037927936 + 128 + 1)
                :: putUvarint (n % 144115188075855872) := by
            simp only [MarshalBinary, expBit, signBit, if_pos hdneg, hu, if_pos hn3, hx,
              if_neg hum, if_neg hpar]
          refine ⟨by simp [hM], ?_, ?_⟩
          · rw [hM]
            simp only [List.length_cons]
            omega
          · rw [hM]
            have hb : (n / 72057594037927936 + 128 + 1) % 256
                = n / 72057594037927936 + 128 + 1 := by omega
            have hpar2 : (n / 72057594037927936 + 128 + 1) % 2 = 1 := by omega
            have hrw : (n / 72057594037927936 + 128 + 1) * 72057594037927936
                - 72057594037927936
                = 144115188075855872 * (n / 144115188075855872 + 64) := by omega
            have hor : 144115188075855872 * (n / 144115188075855872 + 64)
                ||| n % 144115188075855872 = n + 9223372036854775808 := by
              have h2 : (144115188075855872 : Nat) = 2 ^ 57 := by norm_num
              rw [h2, ← Nat.mul_add_lt_is_or (show n % 2 ^ 57 < 2 ^ 57 by omega)
                (n / 2 ^ 57 + 64)]
              omega
            simp [UnmarshalBinary, signBit, hb, hpar2, hvar, hrw, hor, hA, hB]
  · -- nonnegative values
    obtain ⟨n, rfl⟩ : ∃ n : Nat, d = (n : Int) := ⟨d.toNat, by omega⟩
    have hn : n < 9223372036854775808 := by omega
    have hu : u64 (n : Int) = n := by unfold u64; omega
    have hneg : ¬((n : Int) < 0) := by omega
    have hno : ¬(9223372036854775808 ≤ n) := by omega
    by_cases hum : n % 144115188075855872 = 0
    · have hM : MarshalBinary (n : Int) = [n / 72057594037927936] := by
        simp only [MarshalBinary, expBit, if_neg hneg, hu, if_pos hum]
        congr 1
        omega
      refine ⟨by simp [hM], by simp [hM], ?_⟩
      rw [hM]
      have hb : n / 72057594037927936 % 256 = n / 72057594037927936 := by omega
      have hpar : ¬(n / 72057594037927936 % 2 = 1) := by omega
      have hu0 : n / 72057594037927936 * 72057594037927936 = n := by omega
      simp [UnmarshalBinary, signBit, ofU64, hb, if_neg hpar, hu0, hno, hn]
    · have hlen : (putUvarint (n % 144115188075855872)).length ≤ 9 :=
        putUvarint_length_le9 _ (by omega)
      have hvar : uvarint (putUvarint (n % 144115188075855872))
          = some (n % 144115188075855872) := uvarint_putUvarint _ (by omega)
      have hx : n / 72057594037927936 % 256 = n / 72057594037927936 := by omega
      by_cases hpar : n / 72057594037927936 % 2 = 1
      · have hM : MarshalBinary (n : Int)
            = n / 72057594037927936 :: putUvarint (n % 144115188075855872) := by
          simp only [MarshalBinary, expBit, if_neg hneg, hu, hx, if_neg hum, if_pos hpar]
        refine ⟨by simp [hM], ?_, ?_⟩
        · rw [hM]
          simp only [List.length_cons]
          omega
        · rw [hM]
          have hrw : n / 72057594037927936 * 72057594037927936 - 72057594037927936
              = 144115188075855872 * (n / 144115188075855872) := by omega
          have hor : 144115188075855872 * (n / 144115188075855872)
              ||| n % 144115188075855872 = n := by
            have h2 : (144115188075855872 : Nat) = 2 ^ 57 := by norm_num
            rw [h2, ← Nat.mul_add_lt_is_or (show n % 2 ^ 57 < 2 ^ 57 by omega)
              (n / 2 ^ 57)]
            omega
          simp [UnmarshalBinary, signBit, ofU64, hx, hpar, hvar, hrw, hor, hno, hn]
      · have hM : MarshalBinary (n : Int)
            = (n / 72057594037927936 + 1) :: putUvarint (n % 144115188075855872) := by
          simp only [MarshalBinary, expBit, if_neg hneg, hu, hx, if_neg hum, if_neg hpar]
        refine ⟨by simp [hM], ?_, ?_⟩
        · rw [hM]
          simp only [List.length_cons]
          omega
        · rw [hM]
          have hb : (n / 72057594037927936 + 1) % 256 = n / 72057594037927936 + 1 := by
            omega
          have hpar2 : (n / 72057594037927936 + 1) % 2 = 1 := by omega
          have hrw : (n / 72057594037927936 + 1) * 72057594037927936 - 72057594037927936
              = 144115188075855872 * (n / 144115188075855872) := by omega
          have hor : 144115188075855872 * (n / 144115188075855872)
              ||| n % 144115188075855872 = n := by
            have h2 : (144115188075855872 : Nat) = 2 ^ 57 := by norm_num
            rw [h2, ← Nat.mul_add_lt_is_or (show n % 2 ^ 57 < 2 ^ 57 by omega)
              (n / 2 ^ 57)]
            omega
          simp [UnmarshalBinary, signBit, ofU64, hb, hpar2, hvar, hrw, hor, hno, hn]

/-- Witness for c6_binary_roundtrip at the concrete value 100. -/
theorem c6_binary_roundtrip_witness :
    MarshalBinary (100 : Decimal) = [1, 100] ∧
    UnmarshalBinary (MarshalBinary (100 : Decimal)) = some (100 : Decimal) :=
  ⟨c6_binary_roundtrip.1.2,
   (c6_binary_roundtrip.2 100 (by decide) (by decide)).2.2⟩

end DecimalSpec
